import Mathlib

/-!
# Album-art cache of harbour-sailfishconnect

A shallow embedding of `plugins/sf_mprisremote/albumartcache.cpp`:
the cache-key derivation, the download job (`DownloadAlbumArtJob`), the
store (`AlbumArtCache`) and the image provider (`AlbumArtProvider`).

Conventions of the embedding
* `QString` is a list of characters, `QByteArray` a list of byte values.
* Library code that is not part of the repository (MD5, the URL parser) is a
  field of `Qt`; every theorem holds for all values of these fields.
* Byte counts (`qint64`) are unbounded integers: a cache directory cannot
  hold `2^63` bytes.
* Pointers to heap objects are natural numbers, `nullptr` is `none`.
-/

namespace SailfishConnect

abbrev QString := List Char
abbrev QByteArray := List Nat

/-! ## Library functions used by the cache -/

/-- One lower-case hexadecimal digit, as `QByteArray::toHex` prints it. -/
def hexDigit (n : Nat) : Char :=
  "0123456789abcdef".toList.getD (n % 16) '0'

/-- `QByteArray::toHex`: two lower-case hex digits per byte. -/
def toHex : QByteArray → QString
  | [] => []
  | b :: bs => hexDigit (b % 256 / 16) :: hexDigit (b % 16) :: toHex bs

/-- `QString::split(sep)` with the default `KeepEmptyParts`: the pieces
between the separators; the empty string gives one empty piece. -/
def split (sep : Char) : QString → List QString
  | [] => [[]]
  | c :: cs =>
    if c = sep then [] :: split sep cs
    else match split sep cs with
      | [] => [[c]]
      | p :: ps => (c :: p) :: ps

/-- Everything after the last occurrence of `sep` (the whole string when
`sep` does not occur). -/
def afterLast (sep : Char) : QString → QString
  | [] => []
  | c :: cs =>
    if sep ∈ cs then afterLast sep cs
    else if c = sep then cs
    else c :: cs

/-- `QFileInfo(file).fileName()`: the name of the file, excluding the path. -/
def QFileInfo.fileName (file : QString) : QString :=
  afterLast '/' file

/-- `QFileInfo(file).baseName()`: all characters of the file name up to
(not including) the first `.`. -/
def QFileInfo.baseName (file : QString) : QString :=
  (QFileInfo.fileName file).takeWhile (fun c => c != '.')

/-- `QFileInfo(file).suffix()`: all characters of the file name after (not
including) the last `.`; empty when the file name has no `.`. -/
def QFileInfo.suffix (file : QString) : QString :=
  if '.' ∈ QFileInfo.fileName file then afterLast '.' (QFileInfo.fileName file) else []

/-- `QDir(dir).filePath(fileName)`. -/
def QDir.filePath (dir fileName : QString) : QString :=
  if fileName.head? = some '/' then fileName
  else if fileName = [] then dir
  else if dir = [] ∨ dir.getLast? = some '/' then dir ++ fileName
  else dir ++ '/' :: fileName

/-- What the cache observes of a `QUrl`: its encoded form (`toEncoded()`),
its decoded path and whether it is a `file:` URL (`isLocalFile()`). -/
structure QUrl where
  encoded : QByteArray
  path : QString
  localFile : Bool
deriving DecidableEq

/-- `QUrl::fileName()`: everything following the last slash of the path. -/
def QUrl.fileName (url : QUrl) : QString :=
  afterLast '/' url.path

/-- Library code outside the repository: `QCryptographicHash::hash(·, Md5)`
and the conversion `QUrl(const QString&)`. -/
structure Qt where
  md5 : QByteArray → QByteArray
  parseUrl : QString → QUrl

/-! ## Cache-key derivation (`AlbumArtCache`, static part) -/

/-- `AlbumArtCache::hashFor`. -/
def hashFor (qt : Qt) (url : QUrl) : QString :=
  toHex (qt.md5 url.encoded)

/-- `AlbumArtCache::cacheFileNameFor`. -/
def cacheFileNameFor (qt : Qt) (url : QUrl) : QString :=
  let fileExt := QFileInfo.suffix url.fileName
  hashFor qt url ++ '.' :: fileExt

/-- `AlbumArtCache::cacheFileFor`, for a cache whose directory is `cacheDir`. -/
def cacheFileFor (qt : Qt) (cacheDir : QString) (url : QUrl) : QString :=
  let fileExt := QFileInfo.suffix url.fileName
  cacheDir ++ '/' :: (hashFor qt url ++ '.' :: fileExt)

/-- The identifier part of `AlbumArtCache::imageUrl`: the two arguments of
`"image://albumart/%1/%2"`. -/
def imageIdentifier (qt : Qt) (deviceId : QString) (url : QUrl) : QString :=
  deviceId ++ '/' :: cacheFileNameFor qt url

/-- `AlbumArtCache::imageUrl`, as the string handed to `QUrl`. -/
def imageUrl (qt : Qt) (deviceId : QString) (url : QUrl) : QString :=
  "image://albumart/".toList ++ imageIdentifier qt deviceId url

/-- The first steps of `AlbumArtProvider::unsafeRequestImageResponse_`:
split the identifier on `/`, insist on two parts, take the base name of the
second. -/
def parseIdentifier (id : QString) : Option (QString × QString) :=
  match split '/' id with
  | [device, file] => some (device, QFileInfo.baseName file)
  | _ => none

/-! ## The world outside the cache -/

/-- The file system as the cache sees it: the length of the regular file at
a path (`none`: no file there), and whether `QFile::open(WriteOnly)` on the
path succeeds. -/
structure Disk where
  size : QString → Option Nat
  writable : QString → Bool

/-- `QFile(path).open(QIODevice::WriteOnly)`: on success the file exists and
is truncated to length zero (`WriteOnly` implies `Truncate`); on failure
nothing changes. Returns whether the open succeeded. -/
def Disk.openWriteOnly (d : Disk) (path : QString) : Bool × Disk :=
  if d.writable path then
    (true, { d with size := fun q => if q = path then some 0 else d.size q })
  else (false, d)

/-- The bytes of a finished copy are in the destination file. -/
def Disk.written (d : Disk) (path : QString) (bytes : Nat) : Disk :=
  { d with size := fun q => if q = path then some bytes else d.size q }

/-- A payload (`QIODevice`): the reply of a network request, or any other
device supplied by the local-file collaborator. -/
inductive QIODevice where
  | networkReply
  | other
deriving DecidableEq

/-- The source of a copy as `fetchFinished` inspects it once the copy is
done: a `QNetworkReply` with its `RedirectionTargetAttribute` (as a string)
and `HttpStatusCodeAttribute` (as an int), or some other device. -/
inductive Source where
  | networkReply (redirectionTarget : QString) (httpStatus : Int)
  | other
deriving DecidableEq

/-- A finished `CopyJob` as its `result` signal presents it: the identity of
the object, `error()`, `errorString()`, `source()` and
`processedAmount(KJob::Bytes)`. -/
structure KJob where
  id : Nat
  error : Nat
  errorString : QString
  source : Source
  processedBytes : Nat
deriving DecidableEq

/-- Disk and allocator of `CopyJob` objects. -/
structure World where
  disk : Disk
  nextCopy : Nat

/-- What a job does that is visible outside of it. -/
inductive Effect where
  | finished (cacheFile errorString : QString)
  | networkGet (location : QString)
  | copyStarted (id : Nat) (payload : QIODevice)
deriving DecidableEq

/-! ## `DownloadAlbumArtJob` -/

structure DownloadAlbumArtJob where
  m_url : QUrl
  m_hash : QString
  m_filePath : QString
  m_fileTransfer : Option Nat
  m_fileSize : Int
  m_redirectCount : Int

/-- Result of one member function of the job: the return value (for
`gotData`), the job, the world, and the effects in the order they happen. -/
structure JobStep where
  ret : Bool
  job : DownloadAlbumArtJob
  world : World
  effects : List Effect

/-- `DownloadAlbumArtJob::DownloadAlbumArtJob`. -/
def DownloadAlbumArtJob.new (qt : Qt) (url : QUrl) (filePath : QString) :
    DownloadAlbumArtJob :=
  { m_url := url, m_hash := hashFor qt url, m_filePath := filePath,
    m_fileTransfer := none, m_fileSize := 0, m_redirectCount := 0 }

/-- Modelled from the spec: `DownloadAlbumArtJob::isFetching` is declared in
albumartcache.h, which is not among the sources; "already Fetching" is a copy
job being set (`fetchFinished` resets `m_fileTransfer` to null before it
calls `gotData` again). -/
def DownloadAlbumArtJob.isFetching (j : DownloadAlbumArtJob) : Bool :=
  j.m_fileTransfer.isSome

/-- `DownloadAlbumArtJob::fileName`. -/
def DownloadAlbumArtJob.fileName (j : DownloadAlbumArtJob) : QString :=
  QFileInfo.fileName j.m_filePath

/-- `DownloadAlbumArtJob::gotData`. -/
def DownloadAlbumArtJob.gotData (j : DownloadAlbumArtJob) (w : World)
    (payload : Option QIODevice) : JobStep :=
  if j.isFetching then
    ⟨false, j, w, []⟩
  else
    match payload with
    | none =>
      ⟨false, j, w, [.finished j.m_filePath "Empty payload".toList]⟩
    | some p =>
      match w.disk.openWriteOnly j.m_filePath with
      | (false, _) =>
        ⟨false, j, w, [.finished j.m_filePath "Failed to create cache file".toList]⟩
      | (true, disk1) =>
        ⟨true, { j with m_fileTransfer := some w.nextCopy },
          { disk := disk1, nextCopy := w.nextCopy + 1 },
          [.copyStarted w.nextCopy p]⟩

/-- `DownloadAlbumArtJob::failed`: the result of the marker's `open` is not
looked at. -/
def DownloadAlbumArtJob.failed (j : DownloadAlbumArtJob) (w : World)
    (error : QString) : JobStep :=
  let disk1 := (w.disk.openWriteOnly j.m_filePath).2
  ⟨false, j, { w with disk := disk1 }, [.finished j.m_filePath error]⟩

/-- `DownloadAlbumArtJob::fetchFinished`, the slot of `KJob::result`. -/
def DownloadAlbumArtJob.fetchFinished (j : DownloadAlbumArtJob) (w : World)
    (fileTransfer : KJob) : JobStep :=
  if some fileTransfer.id ≠ j.m_fileTransfer then
    ⟨false, j, w, []⟩
  else if fileTransfer.error ≠ 0 then
    j.failed w fileTransfer.errorString
  else
    match fileTransfer.source with
    | .networkReply location status =>
      if location ≠ [] then
        let j1 : DownloadAlbumArtJob := { j with m_redirectCount := j.m_redirectCount + 1 }
        if j1.m_redirectCount > 10 then
          j1.failed w "too many redirects".toList
        else
          let j2 : DownloadAlbumArtJob := { j1 with m_fileTransfer := none }
          let r := j2.gotData w (some .networkReply)
          { r with ret := false, effects := .networkGet location :: r.effects }
      else if status ≠ 200 then
        j.failed w "status code was not 200".toList
      else
        ⟨false, { j with m_fileSize := fileTransfer.processedBytes }, w,
          [.finished j.m_filePath []]⟩
    | .other =>
      ⟨false, { j with m_fileSize := fileTransfer.processedBytes }, w,
        [.finished j.m_filePath []]⟩

/-- The job as `fetchFinished` hands it to `gotData` when it follows a
redirect: one more redirect counted, no current transfer. -/
def DownloadAlbumArtJob.redirected (j : DownloadAlbumArtJob) : DownloadAlbumArtJob :=
  { j with m_redirectCount := j.m_redirectCount + 1, m_fileTransfer := none }

/-- What can happen to one job: a call of `gotData`, or the `result` signal
of a copy job reaching `fetchFinished`. -/
inductive JobEvent where
  | gotData (payload : Option QIODevice)
  | copyResult (fileTransfer : KJob)
deriving DecidableEq

/-- One event on a job. When the job's current copy reports its result, the
bytes it processed are in the destination file before the slot runs. -/
def DownloadAlbumArtJob.step (j : DownloadAlbumArtJob) (w : World) :
    JobEvent → JobStep
  | .gotData payload => j.gotData w payload
  | .copyResult k =>
    if some k.id = j.m_fileTransfer then
      j.fetchFinished { w with disk := w.disk.written j.m_filePath k.processedBytes } k
    else j.fetchFinished w k

/-- A sequence of events on one job; the effects of all of them in order. -/
def DownloadAlbumArtJob.run (j : DownloadAlbumArtJob) (w : World) :
    List JobEvent → DownloadAlbumArtJob × World × List Effect
  | [] => (j, w, [])
  | e :: es =>
    let r := j.step w e
    let rest := DownloadAlbumArtJob.run r.job r.world es
    (rest.1, rest.2.1, r.effects ++ rest.2.2)

/-- Whether the source of a finished copy is a network reply that carries a
non-empty redirect target. -/
def Source.redirects : Source → Bool
  | .networkReply location _ => !location.isEmpty
  | .other => false

/-- The results of consecutive copies that complete without a copy error:
the copy with identity `first` has the first source and byte count of the
list, the next one made has the second, and so on. -/
def copyResults (first : Nat) : List (Source × Nat) → List JobEvent
  | [] => []
  | (source, bytes) :: rest =>
    .copyResult ⟨first, 0, [], source, bytes⟩ :: copyResults (first + 1) rest

/-- The identities of the copies whose result occurs in a sequence of
events. -/
def copyResultIds : List JobEvent → List Nat
  | [] => []
  | .copyResult k :: rest => k.id :: copyResultIds rest
  | _ :: rest => copyResultIds rest

/-- Whether an event is a call of `gotData`. -/
def JobEvent.isGotData : JobEvent → Bool
  | .gotData _ => true
  | .copyResult _ => false

/-- The terminal events (`finished` signals) among some effects. -/
def terminalEvents : List Effect → List (QString × QString)
  | [] => []
  | .finished f e :: rest => (f, e) :: terminalEvents rest
  | _ :: rest => terminalEvents rest

/-- The network requests among some effects. -/
def networkRequests : List Effect → List QString
  | [] => []
  | .networkGet l :: rest => l :: networkRequests rest
  | _ :: rest => networkRequests rest

/-! ## `AlbumArtCache` -/

/-- `QHash::insert`. -/
def QHash.insert {α : Type} (h : QString → Option α) (key : QString) (value : α) :
    QString → Option α :=
  fun q => if q = key then some value else h q

/-- `QHash::remove`. -/
def QHash.remove {α : Type} (h : QString → Option α) (key : QString) :
    QString → Option α :=
  fun q => if q = key then none else h q

/-- The members of `AlbumArtCache`: `m_diskCache` maps a hash to the name of
its cache file, `m_fetching` maps a hash to the job that fetches it. -/
structure AlbumArtCache where
  m_deviceId : QString
  m_cacheDir : QString
  m_diskCache : QString → Option QString
  m_diskCacheSize : Int
  m_fetching : QString → Option Nat

/-- `getCacheDir`, with `cacheLocation` the platform's
`QStandardPaths::CacheLocation`. -/
def getCacheDir (cacheLocation id : QString) : QString :=
  cacheLocation ++ '/' :: id ++ "/albumart".toList

/-- One entry of `QDir::entryInfoList(QDir::Files | QDir::NoDotAndDotDot)`. -/
structure DirEntry where
  fileName : QString
  size : Nat
deriving DecidableEq

/-- The loop of the constructor over the files of the cache directory. -/
def AlbumArtCache.scan (c : AlbumArtCache) : List DirEntry → AlbumArtCache
  | [] => c
  | file :: files =>
    AlbumArtCache.scan
      { c with
        m_diskCache := QHash.insert c.m_diskCache (QFileInfo.baseName file.fileName) file.fileName
        m_diskCacheSize := c.m_diskCacheSize + file.size } files

/-- `AlbumArtCache::AlbumArtCache`: `mkpathOk` is the result of
`m_cacheDir.mkpath(".")`, `files` the listing of the directory. -/
def AlbumArtCache.new (cacheLocation deviceId : QString) (mkpathOk : Bool)
    (files : List DirEntry) : AlbumArtCache :=
  let c : AlbumArtCache :=
    { m_deviceId := deviceId, m_cacheDir := getCacheDir cacheLocation deviceId,
      m_diskCache := fun _ => none, m_diskCacheSize := 0, m_fetching := fun _ => none }
  if !mkpathOk then c else c.scan files

/-- `AlbumArtCache::getFetchingJob`. -/
def AlbumArtCache.getFetchingJob (c : AlbumArtCache) (hash : QString) : Option Nat :=
  c.m_fetching hash

/-- `AlbumArtCache::isHashAvailable`. -/
def AlbumArtCache.isHashAvailable (c : AlbumArtCache) (hash : QString) : Bool :=
  (c.m_diskCache hash).isSome

/-- `AlbumArtCache::isAvailable`. -/
def AlbumArtCache.isAvailable (qt : Qt) (c : AlbumArtCache) (url : QUrl) : Bool :=
  (c.m_diskCache (hashFor qt url)).isSome

/-- `AlbumArtCache::fetchFinished`, the slot of `DownloadAlbumArtJob::finished`;
`job` is the sender. -/
def AlbumArtCache.fetchFinished (c : AlbumArtCache) (job : DownloadAlbumArtJob)
    (_cacheFile errorString : QString) : AlbumArtCache :=
  let c1 : AlbumArtCache := { c with m_fetching := QHash.remove c.m_fetching job.m_hash }
  if errorString = [] then
    { c1 with
      m_diskCache := QHash.insert c1.m_diskCache job.m_hash job.fileName
      m_diskCacheSize := c1.m_diskCacheSize + job.m_fileSize }
  else c1

/-- The `finished` signals among the effects of a job reach the cache's slot
at once (the connection made in `startFetching` is a direct one); every
member function of the job emits as its last action, so the sender is the
job as the function leaves it. -/
def AlbumArtCache.deliver (c : AlbumArtCache) (sender : DownloadAlbumArtJob) :
    List Effect → AlbumArtCache
  | [] => c
  | .finished f e :: rest => AlbumArtCache.deliver (c.fetchFinished sender f e) sender rest
  | _ :: rest => AlbumArtCache.deliver c sender rest

/-- The cache together with the job objects it owns and the world. -/
structure System where
  cache : AlbumArtCache
  jobs : Nat → Option DownloadAlbumArtJob
  nextJob : Nat
  world : World

/-- What the cache itself asks of its collaborators. -/
inductive Request where
  | networkGet (url : QUrl)
  | requestAlbumArt (originalUrl playerName : QString)
deriving DecidableEq

structure StartResult where
  job : Option Nat
  system : System
  requests : List Request

/-- `AlbumArtCache::startFetching`. -/
def System.startFetching (qt : Qt) (s : System) (originalUrl playerName : QString) :
    StartResult :=
  if originalUrl = [] then ⟨none, s, []⟩
  else
    let url := qt.parseUrl originalUrl
    let hash := hashFor qt url
    if (s.cache.m_diskCache hash).isSome || (s.cache.m_fetching hash).isSome then
      ⟨none, s, []⟩
    else
      let job := DownloadAlbumArtJob.new qt url (cacheFileFor qt s.cache.m_cacheDir url)
      let ptr := s.nextJob
      let c1 : AlbumArtCache :=
        { s.cache with m_fetching := QHash.insert s.cache.m_fetching hash ptr }
      if !url.localFile then
        let r := job.gotData s.world (some .networkReply)
        ⟨some ptr,
          { cache := c1.deliver r.job r.effects,
            jobs := fun p => if p = ptr then some r.job else s.jobs p,
            nextJob := ptr + 1, world := r.world },
          [.networkGet url]⟩
      else
        ⟨some ptr,
          { cache := c1, jobs := fun p => if p = ptr then some job else s.jobs p,
            nextJob := ptr + 1, world := s.world },
          [.requestAlbumArt originalUrl playerName]⟩

/-- `AlbumArtCache::endFetching`. -/
def System.endFetching (qt : Qt) (s : System) (url : QUrl)
    (payload : Option QIODevice) : System :=
  match s.cache.m_fetching (hashFor qt url) with
  | none => s
  | some ptr =>
    match s.jobs ptr with
    | none => s
    | some job =>
      let r := job.gotData s.world payload
      { s with cache := s.cache.deliver r.job r.effects,
               jobs := fun p => if p = ptr then some r.job else s.jobs p,
               world := r.world }

/-- The `result` signal of a copy job reaches the job `ptr`. -/
def System.copyResult (s : System) (ptr : Nat) (k : KJob) : System :=
  match s.jobs ptr with
  | none => s
  | some job =>
    let r := job.step s.world (.copyResult k)
    { s with cache := s.cache.deliver r.job r.effects,
             jobs := fun p => if p = ptr then some r.job else s.jobs p,
             world := r.world }

/-- What can happen to the cache: the two public operations, the completion
of a copy of one of its jobs (with the terminal event the job then emits),
and a terminal event of one of its jobs by itself. -/
inductive Event where
  | startFetching (originalUrl playerName : QString)
  | endFetching (url : QUrl) (payload : Option QIODevice)
  | copyResult (job : Nat) (fileTransfer : KJob)
  | finished (job : Nat) (cacheFile errorString : QString)
deriving DecidableEq

/-- The `finished` signal of the job `ptr` reaches the slot of the cache,
whatever made the job emit it. -/
def System.finished (s : System) (ptr : Nat) (cacheFile errorString : QString) : System :=
  match s.jobs ptr with
  | none => s
  | some job => { s with cache := s.cache.fetchFinished job cacheFile errorString }

def System.step (qt : Qt) (s : System) : Event → System
  | .startFetching originalUrl playerName => (s.startFetching qt originalUrl playerName).system
  | .endFetching url payload => s.endFetching qt url payload
  | .copyResult ptr k => s.copyResult ptr k
  | .finished ptr cacheFile errorString => s.finished ptr cacheFile errorString

def System.run (qt : Qt) (s : System) : List Event → System
  | [] => s
  | e :: es => System.run qt (s.step qt e) es

/-- The system right after the constructor of the cache. -/
def System.init (cacheLocation deviceId : QString) (mkpathOk : Bool)
    (files : List DirEntry) (disk : Disk) : System :=
  { cache := AlbumArtCache.new cacheLocation deviceId mkpathOk files,
    jobs := fun _ => none, nextJob := 0, world := ⟨disk, 0⟩ }

/-- Calling `startFetching` again and again with the same arguments: the
jobs returned, in order, and the system after the last call. -/
def System.startFetchingTimes (qt : Qt) (s : System) (originalUrl playerName : QString) :
    Nat → List (Option Nat) × System
  | 0 => ([], s)
  | n + 1 =>
    let r := s.startFetching qt originalUrl playerName
    let rest := System.startFetchingTimes qt r.system originalUrl playerName n
    (r.job :: rest.1, rest.2)

/-- No key is both in the cache index and in the in-flight registry. -/
def AlbumArtCache.Exclusive (c : AlbumArtCache) : Prop :=
  ∀ key, ¬ ((c.m_diskCache key).isSome = true ∧ (c.m_fetching key).isSome = true)

/-- A state of the system that the constructor followed by some events
leads to. -/
def System.Reachable (qt : Qt) (s : System) : Prop :=
  ∃ (cacheLocation deviceId : QString) (mkpathOk : Bool) (files : List DirEntry)
    (disk : Disk) (events : List Event),
    s = (System.init cacheLocation deviceId mkpathOk files disk).run qt events

/-! ## `AlbumArtProvider` -/

/-- A `QImage`: the null image `QImage()`, or what `QImage(path)` loads. -/
inductive QImage where
  | null
  | fromFile (path : QString)
deriving DecidableEq

/-- The two kinds of response: `CachedAlbumArtImageResponse(image)`, which is
finished as soon as it is made, and `AlbumArtImageResponse(job)`, which
waits for the `finished` signal of the job. -/
inductive QQuickImageResponse where
  | cached (image : QImage)
  | subscribed (job : Nat)
deriving DecidableEq

/-- A device of the daemon: `plugin("sailfishconnect_mprisremote")` cast to
`MprisRemotePlugin`, and the `albumArtCache()` of that plugin. -/
structure Device where
  mprisRemotePlugin : Option AlbumArtCache

/-- `Daemon::instance()`, as far as the provider uses it. -/
structure Daemon where
  getDevice : QString → Option Device

/-- `AlbumArtCache::getCacheFile`. -/
def AlbumArtCache.getCacheFile (c : AlbumArtCache) (hashFile : QString) : QImage :=
  .fromFile (QDir.filePath c.m_cacheDir hashFile)

/-- `AlbumArtProvider::unsafeRequestImageResponse_`; the daemon is handed
back as the call leaves it. -/
def unsafeRequestImageResponse_ (d : Daemon) (id : QString) :
    QQuickImageResponse × Daemon :=
  match split '/' id with
  | [part0, part1] =>
    match d.getDevice part0 with
    | none => (.cached .null, d)
    | some device =>
      match device.mprisRemotePlugin with
      | none => (.cached .null, d)
      | some cache =>
        let hash := QFileInfo.baseName part1
        match cache.getFetchingJob hash with
        | some job => (.subscribed job, d)
        | none =>
          if !cache.isHashAvailable hash then (.cached .null, d)
          else (.cached (cache.getCacheFile part1), d)
  | _ => (.cached .null, d)

/-! ## Examples used to evaluate the definitions -/

/-- A stand-in for the library on examples: the digest is the input itself,
a URL string is its own path and encoded form, and is local when it starts
with `f`. -/
def exampleQt : Qt :=
  { md5 := fun bytes => bytes,
    parseUrl := fun s => ⟨s.map Char.toNat, s, s.head? = some 'f'⟩ }

/-- The URL `http://x/img`: the file name `img` has no extension. -/
def plainUrl : QUrl :=
  ⟨"http://x/img".toList.map Char.toNat, "/img".toList, false⟩

/-- The URL `http://x/img.png`. -/
def pngUrl : QUrl :=
  ⟨"http://x/img.png".toList.map Char.toNat, "/img.png".toList, false⟩

/-- A disk without files on which every path can be opened for writing. -/
def exampleDisk : Disk := ⟨fun _ => none, fun _ => true⟩

/-- A disk without files on which no path can be opened (the cache
directory could not be created). -/
def lockedDisk : Disk := ⟨fun _ => none, fun _ => false⟩

def exampleWorld : World := ⟨exampleDisk, 0⟩

def lockedWorld : World := ⟨lockedDisk, 0⟩

/-- A job for `http://x/img.png` as `startFetching` makes it. -/
def exampleJob : DownloadAlbumArtJob :=
  DownloadAlbumArtJob.new exampleQt pngUrl
    (cacheFileFor exampleQt "/cache/device1/albumart".toList pngUrl)

/-- The example job while its first copy (identity 0) runs. -/
def fetchingJob : DownloadAlbumArtJob :=
  { exampleJob with m_fileTransfer := some 0 }

/-- Eleven responses that redirect to `http://y/img2.png`. -/
def elevenRedirects : List (Source × Nat) :=
  List.replicate 11 (.networkReply "http://y/img2.png".toList 302, 0)

/-- Ten responses that redirect to `http://y/img2.png`. -/
def tenRedirects : List (Source × Nat) :=
  List.replicate 10 (.networkReply "http://y/img2.png".toList 302, 0)

/-- A fresh cache for `device1` on the example disk. -/
def exampleSystem : System :=
  System.init "/cache".toList "device1".toList true [] exampleDisk

/-- A fresh cache for `device1` whose directory could not be created. -/
def lockedSystem : System :=
  System.init "/cache".toList "device1".toList false [] lockedDisk

/-- The example system after `startFetching("http://x/img.png", "player")`. -/
def fetchingSystem : System :=
  (exampleSystem.startFetching exampleQt "http://x/img.png".toList "player".toList).system

/-- The job of `fetchingSystem` once its copy has written two bytes and
reported success. -/
def doneJob : DownloadAlbumArtJob :=
  (fetchingJob.step ⟨exampleDisk, 1⟩ (.copyResult ⟨0, 0, [], .networkReply [] 200, 2⟩)).job

/-! ## Strings -/

theorem hexDigit_mem (n : Nat) : hexDigit n ∈ "0123456789abcdef".toList := by
  unfold hexDigit
  have h : n % 16 < 16 := Nat.mod_lt _ (by decide)
  generalize n % 16 = m at h
  interval_cases m <;> decide

theorem not_mem_toHex (c : Char) (hc : c ∉ "0123456789abcdef".toList)
    (bytes : QByteArray) : c ∉ toHex bytes := by
  induction bytes with
  | nil => simp [toHex]
  | cons b bs ih =>
    intro hmem
    simp only [toHex, List.mem_cons] at hmem
    rcases hmem with h | h | h
    · exact hc (h ▸ hexDigit_mem _)
    · exact hc (h ▸ hexDigit_mem _)
    · exact ih h

theorem dot_not_mem_hashFor (qt : Qt) (url : QUrl) : '.' ∉ hashFor qt url :=
  not_mem_toHex '.' (by decide) _

theorem slash_not_mem_hashFor (qt : Qt) (url : QUrl) : '/' ∉ hashFor qt url :=
  not_mem_toHex '/' (by decide) _

theorem split_of_not_mem (sep : Char) (s : QString) (h : sep ∉ s) :
    split sep s = [s] := by
  induction s with
  | nil => rfl
  | cons c cs ih =>
    have hc : c ≠ sep := fun e => h (e ▸ List.mem_cons_self _ _)
    have hcs : sep ∉ cs := fun m => h (List.mem_cons_of_mem _ m)
    simp [split, hc, ih hcs]

theorem split_append_sep (sep : Char) (a b : QString) (h : sep ∉ a) :
    split sep (a ++ sep :: b) = a :: split sep b := by
  induction a with
  | nil => simp [split]
  | cons c cs ih =>
    have hc : c ≠ sep := fun e => h (e ▸ List.mem_cons_self _ _)
    have hcs : sep ∉ cs := fun m => h (List.mem_cons_of_mem _ m)
    simp [split, hc, ih hcs]

theorem afterLast_not_mem (sep : Char) (s : QString) : sep ∉ afterLast sep s := by
  induction s with
  | nil => simp [afterLast]
  | cons c cs ih =>
    unfold afterLast
    by_cases h1 : sep ∈ cs
    · simpa [h1] using ih
    · by_cases h2 : c = sep
      · simp [h1, h2]
      · simp only [h1, h2, if_false]
        intro hm
        rcases List.mem_cons.mp hm with e | m
        · exact h2 e.symm
        · exact h1 m

theorem afterLast_of_not_mem (sep : Char) (s : QString) (h : sep ∉ s) :
    afterLast sep s = s := by
  cases s with
  | nil => rfl
  | cons c cs =>
    have hc : c ≠ sep := fun e => h (e ▸ List.mem_cons_self _ _)
    have hcs : sep ∉ cs := fun m => h (List.mem_cons_of_mem _ m)
    simp [afterLast, hc, hcs]

theorem afterLast_append_sep (sep : Char) (a b : QString) (h : sep ∉ b) :
    afterLast sep (a ++ sep :: b) = b := by
  induction a with
  | nil => simp [afterLast, h]
  | cons c cs ih =>
    have hm : sep ∈ cs ++ sep :: b := by simp
    show afterLast sep (c :: (cs ++ sep :: b)) = b
    unfold afterLast
    rw [if_pos hm]
    exact ih

theorem afterLast_subset (sep : Char) (s : QString) (c : Char)
    (h : c ∈ afterLast sep s) : c ∈ s := by
  induction s with
  | nil => simp [afterLast] at h
  | cons d ds ih =>
    unfold afterLast at h
    by_cases h1 : sep ∈ ds
    · simp only [h1, if_true] at h
      exact List.mem_cons_of_mem _ (ih h)
    · by_cases h2 : d = sep
      · simp only [h1, h2, if_false, if_true] at h
        exact List.mem_cons_of_mem _ h
      · simpa [h1, h2] using h

theorem takeWhile_append_dot (a b : QString) (h : '.' ∉ a) :
    (a ++ '.' :: b).takeWhile (fun c => c != '.') = a := by
  induction a with
  | nil => simp [List.takeWhile]
  | cons c cs ih =>
    have hc : c ≠ '.' := fun e => h (e ▸ List.mem_cons_self _ _)
    have hcs : '.' ∉ cs := fun m => h (List.mem_cons_of_mem _ m)
    have hb : (c != '.') = true := by simp [hc]
    show List.takeWhile (fun c => c != '.') (c :: (cs ++ '.' :: b)) = c :: cs
    rw [List.takeWhile_cons, hb]
    simp [ih hcs]

theorem slash_not_mem_suffix_fileName (url : QUrl) :
    '/' ∉ QFileInfo.suffix url.fileName := by
  have hf : '/' ∉ url.fileName := afterLast_not_mem '/' url.path
  unfold QFileInfo.suffix
  have hfn : QFileInfo.fileName url.fileName = url.fileName :=
    afterLast_of_not_mem '/' _ hf
  rw [hfn]
  split
  · exact fun hm => hf (afterLast_subset '.' _ _ hm)
  · simp

theorem slash_not_mem_cacheFileNameFor (qt : Qt) (url : QUrl) :
    '/' ∉ cacheFileNameFor qt url := by
  unfold cacheFileNameFor
  intro hm
  rcases List.mem_append.mp hm with h | h
  · exact slash_not_mem_hashFor qt url h
  · rcases List.mem_cons.mp h with e | m
    · exact absurd e (by decide)
    · exact slash_not_mem_suffix_fileName url m

theorem baseName_cacheFileNameFor (qt : Qt) (url : QUrl) :
    QFileInfo.baseName (cacheFileNameFor qt url) = hashFor qt url := by
  unfold QFileInfo.baseName QFileInfo.fileName
  rw [afterLast_of_not_mem '/' _ (slash_not_mem_cacheFileNameFor qt url)]
  exact takeWhile_append_dot _ _ (dot_not_mem_hashFor qt url)

theorem fileName_cacheFileFor (qt : Qt) (cacheDir : QString) (url : QUrl) :
    QFileInfo.fileName (cacheFileFor qt cacheDir url) = cacheFileNameFor qt url := by
  unfold QFileInfo.fileName cacheFileFor
  exact afterLast_append_sep '/' _ _ (slash_not_mem_cacheFileNameFor qt url)

/-! ## Cache-key derivation -/

/-- C7, as amended: for every URL the cache file name is the hash, a `.`,
and the extension of the file name of the URL's path. When the file name has
no extension the name is the hash followed by a single `.`; when the file
name is `stem.e` with no `.` in `e` the name is the hash followed by `.e`.
The last path segment of `cacheFileFor` is that same name. -/
theorem cacheFileNameFor_extension (qt : Qt) (cacheDir : QString) (url : QUrl) :
    ('.' ∉ url.fileName → cacheFileNameFor qt url = hashFor qt url ++ ['.'])
    ∧ (∀ stem e : QString, url.fileName = stem ++ '.' :: e → '.' ∉ e →
        cacheFileNameFor qt url = hashFor qt url ++ '.' :: e)
    ∧ QFileInfo.fileName (cacheFileFor qt cacheDir url) = cacheFileNameFor qt url := by
  have hf : '/' ∉ url.fileName := afterLast_not_mem '/' url.path
  have hfn : QFileInfo.fileName url.fileName = url.fileName :=
    afterLast_of_not_mem '/' _ hf
  refine ⟨?_, ?_, fileName_cacheFileFor qt cacheDir url⟩
  · intro hdot
    simp [cacheFileNameFor, QFileInfo.suffix, hfn, hdot]
  · intro stem e hname he
    have hmem : '.' ∈ url.fileName := by rw [hname]; simp
    have hsuf : QFileInfo.suffix url.fileName = e := by
      unfold QFileInfo.suffix
      rw [hfn, if_pos hmem, hname]
      exact afterLast_append_sep '.' stem e he
    simp [cacheFileNameFor, hsuf]

/-- C7, counterexample: the file name of `http://x/img` has no extension, and
whatever the digest is, its cache file name is not the bare hash (it is the
hash followed by `.`). -/
theorem cacheFileNameFor_plain_not_bare :
    '.' ∉ plainUrl.fileName
    ∧ (¬ ∃ qt : Qt, cacheFileNameFor qt plainUrl = hashFor qt plainUrl)
    ∧ cacheFileNameFor exampleQt plainUrl
        = hashFor exampleQt plainUrl ++ ['.'] := by
  refine ⟨by decide, ?_, ?_⟩
  · rintro ⟨qt, h⟩
    have hl := congrArg List.length h
    simp [cacheFileNameFor] at hl
  · exact (cacheFileNameFor_extension exampleQt [] plainUrl).1 (by decide)

/-- C8: for a device id without `/`, the identifier built by `imageUrl`
splits on `/` into exactly the device id and the cache file name, and the
base name of the latter is `hashFor url`: the key a job for that URL carries
and under which the provider looks the image up. -/
theorem imageIdentifier_roundtrip (qt : Qt) (deviceId : QString) (url : QUrl)
    (h : '/' ∉ deviceId) :
    split '/' (imageIdentifier qt deviceId url) = [deviceId, cacheFileNameFor qt url]
    ∧ parseIdentifier (imageIdentifier qt deviceId url) = some (deviceId, hashFor qt url)
    ∧ (∀ filePath, (DownloadAlbumArtJob.new qt url filePath).m_hash = hashFor qt url)
    ∧ (∀ (d : Daemon) (cache : AlbumArtCache),
        d.getDevice deviceId = some ⟨some cache⟩ →
        (unsafeRequestImageResponse_ d (imageIdentifier qt deviceId url)).1 =
          match cache.m_fetching (hashFor qt url) with
          | some job => .subscribed job
          | none =>
            if (cache.m_diskCache (hashFor qt url)).isSome then
              .cached (cache.getCacheFile (cacheFileNameFor qt url))
            else .cached .null) := by
  have hsplit : split '/' (imageIdentifier qt deviceId url)
      = [deviceId, cacheFileNameFor qt url] := by
    unfold imageIdentifier
    rw [split_append_sep '/' _ _ h,
      split_of_not_mem '/' _ (slash_not_mem_cacheFileNameFor qt url)]
  refine ⟨hsplit, ?_, fun _ => rfl, ?_⟩
  · simp [parseIdentifier, hsplit, baseName_cacheFileNameFor]
  · intro d cache hd
    simp only [unsafeRequestImageResponse_, hsplit, hd, baseName_cacheFileNameFor,
      AlbumArtCache.getFetchingJob, AlbumArtCache.isHashAvailable]
    cases hj : cache.m_fetching (hashFor qt url) with
    | some job => rfl
    | none =>
      cases hc : cache.m_diskCache (hashFor qt url) <;> simp

/-- C8 at `device1` and `http://x/img.png`. -/
theorem imageIdentifier_roundtrip_witness :
    '/' ∉ "device1".toList
    ∧ parseIdentifier (imageIdentifier exampleQt "device1".toList pngUrl)
        = some ("device1".toList, hashFor exampleQt pngUrl) :=
  ⟨by decide, (imageIdentifier_roundtrip exampleQt "device1".toList pngUrl (by decide)).2.1⟩

/-! ## The download job -/

theorem terminalEvents_append (a b : List Effect) :
    terminalEvents (a ++ b) = terminalEvents a ++ terminalEvents b := by
  induction a with
  | nil => rfl
  | cons e es ih => cases e <;> simp [terminalEvents, ih]

theorem networkRequests_append (a b : List Effect) :
    networkRequests (a ++ b) = networkRequests a ++ networkRequests b := by
  induction a with
  | nil => rfl
  | cons e es ih => cases e <;> simp [networkRequests, ih]

theorem run_append (j : DownloadAlbumArtJob) (w : World) (a b : List JobEvent) :
    j.run w (a ++ b) =
      ((DownloadAlbumArtJob.run (j.run w a).1 (j.run w a).2.1 b).1,
       (DownloadAlbumArtJob.run (j.run w a).1 (j.run w a).2.1 b).2.1,
       (j.run w a).2.2 ++ (DownloadAlbumArtJob.run (j.run w a).1 (j.run w a).2.1 b).2.2) := by
  induction a generalizing j w with
  | nil => simp [DownloadAlbumArtJob.run]
  | cons e es ih => simp [DownloadAlbumArtJob.run, ih, List.append_assoc]

theorem gotData_fetching (j : DownloadAlbumArtJob) (w : World) (payload : Option QIODevice)
    (i : Nat) (h : j.m_fileTransfer = some i) :
    j.gotData w payload = ⟨false, j, w, []⟩ := by
  simp [DownloadAlbumArtJob.gotData, DownloadAlbumArtJob.isFetching, h]

theorem gotData_null (j : DownloadAlbumArtJob) (w : World) (h : j.m_fileTransfer = none) :
    j.gotData w none = ⟨false, j, w, [.finished j.m_filePath "Empty payload".toList]⟩ := by
  simp [DownloadAlbumArtJob.gotData, DownloadAlbumArtJob.isFetching, h]

theorem gotData_unwritable (j : DownloadAlbumArtJob) (w : World) (p : QIODevice)
    (h : j.m_fileTransfer = none) (hw : w.disk.writable j.m_filePath = false) :
    j.gotData w (some p)
      = ⟨false, j, w, [.finished j.m_filePath "Failed to create cache file".toList]⟩ := by
  simp [DownloadAlbumArtJob.gotData, DownloadAlbumArtJob.isFetching, h,
    Disk.openWriteOnly, hw]

theorem gotData_started (j : DownloadAlbumArtJob) (w : World) (p : QIODevice)
    (h : j.m_fileTransfer = none) (hw : w.disk.writable j.m_filePath = true) :
    j.gotData w (some p)
      = ⟨true, { j with m_fileTransfer := some w.nextCopy },
          { disk := (w.disk.openWriteOnly j.m_filePath).2, nextCopy := w.nextCopy + 1 },
          [.copyStarted w.nextCopy p]⟩ := by
  simp [DownloadAlbumArtJob.gotData, DownloadAlbumArtJob.isFetching, h,
    Disk.openWriteOnly, hw]

theorem fetchFinished_other (j : DownloadAlbumArtJob) (w : World) (k : KJob)
    (h : some k.id ≠ j.m_fileTransfer) :
    j.fetchFinished w k = ⟨false, j, w, []⟩ := by
  simp [DownloadAlbumArtJob.fetchFinished, h]

theorem fetchFinished_copyError (j : DownloadAlbumArtJob) (w : World) (k : KJob)
    (h : j.m_fileTransfer = some k.id) (herr : k.error ≠ 0) :
    j.fetchFinished w k = j.failed w k.errorString := by
  simp [DownloadAlbumArtJob.fetchFinished, h, herr]

theorem fetchFinished_tooMany (j : DownloadAlbumArtJob) (w : World) (k : KJob)
    (location : QString) (status : Int)
    (h : j.m_fileTransfer = some k.id) (herr : k.error = 0)
    (hsrc : k.source = .networkReply location status) (hloc : location ≠ [])
    (hcount : 10 < j.m_redirectCount + 1) :
    j.fetchFinished w k
      = DownloadAlbumArtJob.failed { j with m_redirectCount := j.m_redirectCount + 1 } w
          "too many redirects".toList := by
  simp [DownloadAlbumArtJob.fetchFinished, h, herr, hsrc, hloc, hcount]

theorem fetchFinished_redirect (j : DownloadAlbumArtJob) (w : World) (k : KJob)
    (location : QString) (status : Int)
    (h : j.m_fileTransfer = some k.id) (herr : k.error = 0)
    (hsrc : k.source = .networkReply location status) (hloc : location ≠ [])
    (hcount : j.m_redirectCount + 1 ≤ 10) :
    j.fetchFinished w k
      = ⟨false, (j.redirected.gotData w (some .networkReply)).job,
          (j.redirected.gotData w (some .networkReply)).world,
          .networkGet location :: (j.redirected.gotData w (some .networkReply)).effects⟩ := by
  have hgt : ¬ (10 < j.m_redirectCount + 1) := by omega
  simp [DownloadAlbumArtJob.fetchFinished, h, herr, hsrc, hloc, hgt, DownloadAlbumArtJob.redirected]

theorem fetchFinished_status (j : DownloadAlbumArtJob) (w : World) (k : KJob)
    (status : Int)
    (h : j.m_fileTransfer = some k.id) (herr : k.error = 0)
    (hsrc : k.source = .networkReply [] status) (hstatus : status ≠ 200) :
    j.fetchFinished w k = j.failed w "status code was not 200".toList := by
  simp [DownloadAlbumArtJob.fetchFinished, h, herr, hsrc, hstatus]

theorem fetchFinished_ok (j : DownloadAlbumArtJob) (w : World) (k : KJob)
    (h : j.m_fileTransfer = some k.id) (herr : k.error = 0)
    (hsrc : k.source = .networkReply [] 200 ∨ k.source = .other) :
    j.fetchFinished w k
      = ⟨false, { j with m_fileSize := k.processedBytes }, w,
          [.finished j.m_filePath []]⟩ := by
  rcases hsrc with hsrc | hsrc <;>
    simp [DownloadAlbumArtJob.fetchFinished, h, herr, hsrc]

theorem step_current (j : DownloadAlbumArtJob) (w : World) (k : KJob)
    (h : j.m_fileTransfer = some k.id) :
    j.step w (.copyResult k)
      = j.fetchFinished ⟨w.disk.written j.m_filePath k.processedBytes, w.nextCopy⟩ k := by
  simp [DownloadAlbumArtJob.step, h]

theorem step_redirect (j : DownloadAlbumArtJob) (w : World) (k : KJob)
    (location : QString) (status : Int)
    (h : j.m_fileTransfer = some k.id) (herr : k.error = 0)
    (hsrc : k.source = .networkReply location status) (hloc : location ≠ [])
    (hcount : j.m_redirectCount + 1 ≤ 10) (hw : w.disk.writable j.m_filePath = true) :
    j.step w (.copyResult k)
      = ⟨false,
          { j with m_redirectCount := j.m_redirectCount + 1,
                   m_fileTransfer := some w.nextCopy },
          ⟨((w.disk.written j.m_filePath k.processedBytes).openWriteOnly j.m_filePath).2,
            w.nextCopy + 1⟩,
          [.networkGet location, .copyStarted w.nextCopy .networkReply]⟩ := by
  rw [step_current j w k h, fetchFinished_redirect j _ k location status h herr hsrc hloc hcount,
    gotData_started j.redirected ⟨w.disk.written j.m_filePath k.processedBytes, w.nextCopy⟩
      .networkReply rfl hw]
  rfl

/-- C10: a copy of the job's current transfer that completes without a copy
error. A network reply with a redirect target is followed whatever its
status code (one request to the target, and a new copy when the destination
opens) unless this is the 11th redirect, which fails with "too many
redirects"; a network reply without redirect target succeeds exactly when
the status is 200 and fails with "status code was not 200" otherwise; any
other source succeeds; on success `m_fileSize` is the processed byte count.
Hence a redirect followed by a 404 ends with the single terminal event
`(path, "status code was not 200")`. -/
theorem fetchFinished_decision (j : DownloadAlbumArtJob) (w : World) (k : KJob)
    (hcur : j.m_fileTransfer = some k.id) (herr : k.error = 0) :
    (∀ location status, k.source = .networkReply location status → location ≠ [] →
      (j.m_redirectCount + 1 ≤ 10 →
        networkRequests (j.fetchFinished w k).effects = [location]
        ∧ (j.fetchFinished w k).job.m_redirectCount = j.m_redirectCount + 1
        ∧ (w.disk.writable j.m_filePath = true →
            (j.fetchFinished w k).effects
              = [.networkGet location, .copyStarted w.nextCopy .networkReply]
            ∧ (j.fetchFinished w k).job.m_fileTransfer = some w.nextCopy))
      ∧ (10 < j.m_redirectCount + 1 →
        (j.fetchFinished w k).effects
          = [.finished j.m_filePath "too many redirects".toList]))
    ∧ (∀ status, k.source = .networkReply [] status →
        (status = 200 →
          (j.fetchFinished w k).effects = [.finished j.m_filePath []]
          ∧ (j.fetchFinished w k).job.m_fileSize = k.processedBytes)
        ∧ (status ≠ 200 →
          (j.fetchFinished w k).effects
            = [.finished j.m_filePath "status code was not 200".toList]))
    ∧ (k.source = .other →
        (j.fetchFinished w k).effects = [.finished j.m_filePath []]
        ∧ (j.fetchFinished w k).job.m_fileSize = k.processedBytes)
    ∧ (∀ location status next,
        k.source = .networkReply location status → location ≠ [] →
        j.m_redirectCount + 1 ≤ 10 → w.disk.writable j.m_filePath = true →
        next.id = w.nextCopy → next.error = 0 →
        next.source = .networkReply [] 404 →
        terminalEvents (j.run w [.copyResult k, .copyResult next]).2.2
          = [(j.m_filePath, "status code was not 200".toList)]) := by
  refine ⟨?_, ?_, ?_, ?_⟩
  · intro location status hsrc hloc
    constructor
    · intro hle
      rw [fetchFinished_redirect j w k location status hcur herr hsrc hloc hle]
      refine ⟨?_, ?_, ?_⟩
      · cases hw : w.disk.writable j.m_filePath
        · rw [gotData_unwritable j.redirected _ _ rfl hw]; rfl
        · rw [gotData_started j.redirected _ _ rfl hw]; rfl
      · cases hw : w.disk.writable j.m_filePath
        · rw [gotData_unwritable j.redirected _ _ rfl hw]; rfl
        · rw [gotData_started j.redirected _ _ rfl hw]; rfl
      · intro hw
        rw [gotData_started j.redirected _ _ rfl hw]
        exact ⟨rfl, rfl⟩
    · intro hgt
      rw [fetchFinished_tooMany j w k location status hcur herr hsrc hloc hgt]
      rfl
  · intro status hsrc
    constructor
    · intro h200
      subst h200
      rw [fetchFinished_ok j w k hcur herr (Or.inl hsrc)]
      exact ⟨rfl, rfl⟩
    · intro hstatus
      rw [fetchFinished_status j w k status hcur herr hsrc hstatus]
      rfl
  · intro hsrc
    rw [fetchFinished_ok j w k hcur herr (Or.inr hsrc)]
    exact ⟨rfl, rfl⟩
  · intro location status next hsrc hloc hle hw hid herr2 hsrc2
    simp only [DownloadAlbumArtJob.run]
    rw [step_redirect j w k location status hcur herr hsrc hloc hle hw]
    simp only []
    rw [step_current _ _ next (by simp [hid]),
      fetchFinished_status _ _ next 404 (by simp [hid]) herr2 hsrc2 (by decide)]
    rfl

theorem openWriteOnly_writable (d : Disk) (p : QString) :
    (d.openWriteOnly p).2.writable = d.writable := by
  unfold Disk.openWriteOnly
  split <;> rfl

theorem copyResults_append (n : Nat) (a b : List (Source × Nat)) :
    copyResults n (a ++ b) = copyResults n a ++ copyResults (n + a.length) b := by
  induction a generalizing n with
  | nil => simp [copyResults]
  | cons r rs ih =>
    obtain ⟨src, bytes⟩ := r
    simp [copyResults, ih, Nat.add_assoc, Nat.add_comm 1]

theorem redirects_iff (src : Source) (h : src.redirects = true) :
    ∃ location status, src = .networkReply location status ∧ location ≠ [] := by
  cases src with
  | networkReply location status =>
    refine ⟨location, status, rfl, ?_⟩
    intro e
    simp [Source.redirects, e] at h
  | other => simp [Source.redirects] at h

/-- A run of redirects that stays within the bound: every one of them is
followed, none ends the job. -/
theorem run_redirects (rs : List (Source × Nat)) :
    ∀ (j : DownloadAlbumArtJob) (w : World) (n : Nat),
      j.m_fileTransfer = some n → w.nextCopy = n + 1 →
      w.disk.writable j.m_filePath = true →
      (∀ r ∈ rs, r.1.redirects = true) →
      j.m_redirectCount + rs.length ≤ 10 →
      (j.run w (copyResults n rs)).1.m_fileTransfer = some (n + rs.length)
      ∧ (j.run w (copyResults n rs)).2.1.nextCopy = n + rs.length + 1
      ∧ (j.run w (copyResults n rs)).2.1.disk.writable = w.disk.writable
      ∧ (j.run w (copyResults n rs)).1.m_filePath = j.m_filePath
      ∧ (j.run w (copyResults n rs)).1.m_redirectCount = j.m_redirectCount + rs.length
      ∧ terminalEvents (j.run w (copyResults n rs)).2.2 = []
      ∧ (networkRequests (j.run w (copyResults n rs)).2.2).length = rs.length := by
  induction rs with
  | nil =>
    intro j w n hcur hnext _ _ _
    simp [copyResults, DownloadAlbumArtJob.run, hcur, hnext, terminalEvents, networkRequests]
  | cons r rs ih =>
    intro j w n hcur hnext hw hall hcount
    obtain ⟨src, bytes⟩ := r
    obtain ⟨location, status, hsrc, hloc⟩ :=
      redirects_iff src (hall (src, bytes) (List.mem_cons_self _ _))
    have hlen : ((rs.length : Nat) : Int) + 1 = ((src, bytes) :: rs).length := by simp
    have hle : j.m_redirectCount + 1 ≤ 10 := by
      have : (0 : Int) ≤ rs.length := Int.natCast_nonneg _
      simp only [List.length_cons, Nat.cast_add, Nat.cast_one] at hcount
      omega
    have hstep := step_redirect j w ⟨n, 0, [], src, bytes⟩ location status hcur rfl hsrc hloc hle hw
    have hrec := ih
      { j with m_redirectCount := j.m_redirectCount + 1, m_fileTransfer := some w.nextCopy }
      ⟨((w.disk.written j.m_filePath bytes).openWriteOnly j.m_filePath).2, w.nextCopy + 1⟩
      (n + 1) (by simp [hnext]) (by simp [hnext])
      (by
        show ((w.disk.written j.m_filePath bytes).openWriteOnly j.m_filePath).2.writable
          j.m_filePath = true
        rw [openWriteOnly_writable]; exact hw)
      (fun r hr => hall r (List.mem_cons_of_mem _ hr))
      (by
        simp only [List.length_cons, Nat.cast_add, Nat.cast_one] at hcount
        show j.m_redirectCount + 1 + (rs.length : Int) ≤ 10
        omega)
    simp only [copyResults, DownloadAlbumArtJob.run, hstep]
    obtain ⟨h1, h2, h3, h4, h5, h6, h7⟩ := hrec
    refine ⟨?_, ?_, ?_, ?_, ?_, ?_, ?_⟩
    · rw [h1]; simp [Nat.add_assoc, Nat.add_comm 1]
    · rw [h2]; simp [Nat.add_assoc, Nat.add_comm 1]
    · rw [h3, openWriteOnly_writable]; rfl
    · rw [h4]
    · rw [h5]; simp only [List.length_cons, Nat.cast_add, Nat.cast_one]; omega
    · rw [terminalEvents_append, h6]; rfl
    · rw [networkRequests_append, List.length_append, h7]
      simp [networkRequests, Nat.add_comm]

theorem run_cons (j : DownloadAlbumArtJob) (w : World) (e : JobEvent) (es : List JobEvent) :
    j.run w (e :: es) =
      ((DownloadAlbumArtJob.run (j.step w e).job (j.step w e).world es).1,
       (DownloadAlbumArtJob.run (j.step w e).job (j.step w e).world es).2.1,
       (j.step w e).effects
        ++ (DownloadAlbumArtJob.run (j.step w e).job (j.step w e).world es).2.2) := rfl

/-- The job after a first `gotData` that started a copy, followed by ten
redirects. -/
theorem run_ten_redirects (j : DownloadAlbumArtJob) (w : World) (rs : List (Source × Nat))
    (hfresh : j.m_fileTransfer = none) (hzero : j.m_redirectCount = 0)
    (hw : w.disk.writable j.m_filePath = true)
    (hall : ∀ r ∈ rs, r.1.redirects = true) (hlen : rs.length = 10) :
    (j.run w (.gotData (some .networkReply) :: copyResults w.nextCopy rs)).1.m_fileTransfer
        = some (w.nextCopy + 10)
    ∧ (j.run w (.gotData (some .networkReply) :: copyResults w.nextCopy rs)).1.m_filePath
        = j.m_filePath
    ∧ (j.run w (.gotData (some .networkReply) :: copyResults w.nextCopy rs)).1.m_redirectCount
        = 10
    ∧ terminalEvents
        (j.run w (.gotData (some .networkReply) :: copyResults w.nextCopy rs)).2.2 = []
    ∧ (networkRequests
        (j.run w (.gotData (some .networkReply) :: copyResults w.nextCopy rs)).2.2).length
        = 10 := by
  have hstart : j.step w (.gotData (some .networkReply))
      = ⟨true, { j with m_fileTransfer := some w.nextCopy },
          { disk := (w.disk.openWriteOnly j.m_filePath).2, nextCopy := w.nextCopy + 1 },
          [.copyStarted w.nextCopy .networkReply]⟩ :=
    gotData_started j w .networkReply hfresh hw
  have h := run_redirects rs { j with m_fileTransfer := some w.nextCopy }
    { disk := (w.disk.openWriteOnly j.m_filePath).2, nextCopy := w.nextCopy + 1 }
    w.nextCopy rfl rfl
    (by
      show (w.disk.openWriteOnly j.m_filePath).2.writable j.m_filePath = true
      rw [openWriteOnly_writable]; exact hw)
    hall
    (by
      show j.m_redirectCount + (rs.length : Int) ≤ 10
      rw [hzero, hlen]; decide)
  obtain ⟨h1, _, _, h4, h5, h6, h7⟩ := h
  rw [run_cons, hstart]
  refine ⟨?_, ?_, ?_, ?_, ?_⟩
  · rw [h1, hlen]
  · rw [h4]
  · rw [h5]
    show j.m_redirectCount + (rs.length : Int) = 10
    rw [hzero, hlen]; rfl
  · rw [terminalEvents_append, h6]; rfl
  · rw [networkRequests_append, List.length_append, h7, hlen]; rfl

/-- C3: a fresh job whose destination can be opened is started on a network
reply, and every copy completes without a copy error. If the first 11
responses all carry a redirect target, the job's only terminal event is
`(path, "too many redirects")` and it has issued 10 requests of its own (the
11th response is not followed: with the request that started the job, 11
requests and no 12th). If 10 responses carry a redirect target and the next
one has none and status 200, the only terminal event is `(path, "")`, and
`m_fileSize` is the byte count of that last copy. -/
theorem redirect_bound (j : DownloadAlbumArtJob) (w : World) (rs : List (Source × Nat))
    (hfresh : j.m_fileTransfer = none) (hzero : j.m_redirectCount = 0)
    (hw : w.disk.writable j.m_filePath = true)
    (hall : ∀ r ∈ rs, r.1.redirects = true) :
    (rs.length = 11 →
      terminalEvents
          (j.run w (.gotData (some .networkReply) :: copyResults w.nextCopy rs)).2.2
        = [(j.m_filePath, "too many redirects".toList)]
      ∧ (networkRequests
          (j.run w (.gotData (some .networkReply) :: copyResults w.nextCopy rs)).2.2).length
        = 10)
    ∧ (rs.length = 10 → ∀ bytes : Nat,
      terminalEvents
          (j.run w (.gotData (some .networkReply) ::
            copyResults w.nextCopy (rs ++ [(.networkReply [] 200, bytes)]))).2.2
        = [(j.m_filePath, [])]
      ∧ (networkRequests
          (j.run w (.gotData (some .networkReply) ::
            copyResults w.nextCopy (rs ++ [(.networkReply [] 200, bytes)]))).2.2).length
        = 10
      ∧ (j.run w (.gotData (some .networkReply) ::
            copyResults w.nextCopy (rs ++ [(.networkReply [] 200, bytes)]))).1.m_fileSize
        = bytes) := by
  constructor
  · intro hlen
    have hne : rs ≠ [] := by intro e; simp [e] at hlen
    have hsplit : rs = rs.dropLast ++ [rs.getLast hne] :=
      (List.dropLast_append_getLast hne).symm
    have hlen10 : rs.dropLast.length = 10 := by simp [hlen]
    have hall10 : ∀ r ∈ rs.dropLast, r.1.redirects = true :=
      fun r hr => hall r (List.mem_of_mem_dropLast hr)
    obtain ⟨location, status, hsrc, hloc⟩ :=
      redirects_iff (rs.getLast hne).1 (hall _ (List.getLast_mem hne))
    obtain ⟨h1, h2, h3, h4, h5⟩ := run_ten_redirects j w rs.dropLast hfresh hzero hw hall10 hlen10
    rw [hsplit, copyResults_append, ← List.cons_append, run_append, hlen10]
    generalize j.run w (.gotData (some .networkReply) :: copyResults w.nextCopy rs.dropLast)
      = out at h1 h2 h3 h4 h5
    obtain ⟨j1, w1, eff⟩ := out
    simp only at h1 h2 h3 h4 h5
    have hlast : copyResults (w.nextCopy + 10) [rs.getLast hne]
        = [.copyResult ⟨w.nextCopy + 10, 0, [], (rs.getLast hne).1, (rs.getLast hne).2⟩] := rfl
    simp only [hlast, run_cons, DownloadAlbumArtJob.run, List.append_nil]
    rw [step_current j1 w1 _ h1,
      fetchFinished_tooMany j1 _ _ location status h1 rfl hsrc hloc (by rw [h3]; decide)]
    simp only [terminalEvents_append, networkRequests_append, List.length_append, h4, h5]
    simp [DownloadAlbumArtJob.failed, terminalEvents, networkRequests, h2]
  · intro hlen bytes
    obtain ⟨h1, h2, h3, h4, h5⟩ := run_ten_redirects j w rs hfresh hzero hw hall hlen
    rw [copyResults_append, ← List.cons_append, run_append, hlen]
    generalize j.run w (.gotData (some .networkReply) :: copyResults w.nextCopy rs)
      = out at h1 h2 h3 h4 h5
    obtain ⟨j1, w1, eff⟩ := out
    simp only at h1 h2 h3 h4 h5
    have hlast : copyResults (w.nextCopy + 10) [(Source.networkReply [] 200, bytes)]
        = [.copyResult ⟨w.nextCopy + 10, 0, [], .networkReply [] 200, bytes⟩] := rfl
    simp only [hlast, run_cons, DownloadAlbumArtJob.run, List.append_nil]
    rw [step_current j1 w1 _ h1, fetchFinished_ok j1 _ _ h1 rfl (Or.inl rfl)]
    simp only [terminalEvents_append, networkRequests_append, List.length_append, h4, h5]
    simp [terminalEvents, networkRequests, h2]

/-- C3 at the example job and eleven redirects. -/
theorem redirect_bound_witness :
    exampleJob.m_fileTransfer = none ∧ exampleJob.m_redirectCount = 0
    ∧ exampleWorld.disk.writable exampleJob.m_filePath = true
    ∧ (∀ r ∈ elevenRedirects, r.1.redirects = true)
    ∧ terminalEvents
        (exampleJob.run exampleWorld
          (.gotData (some .networkReply) :: copyResults exampleWorld.nextCopy elevenRedirects)).2.2
      = [(exampleJob.m_filePath, "too many redirects".toList)] :=
  ⟨rfl, rfl, rfl, by decide,
    ((redirect_bound exampleJob exampleWorld elevenRedirects rfl rfl rfl (by decide)).1 rfl).1⟩

/-- C10 at the example job: a redirect to `http://y/img2.png` that answers
404. -/
theorem fetchFinished_decision_witness :
    fetchingJob.m_fileTransfer = some 0
    ∧ terminalEvents
        (fetchingJob.run ⟨exampleDisk, 1⟩
          [.copyResult ⟨0, 0, [], .networkReply "http://y/img2.png".toList 302, 0⟩,
           .copyResult ⟨1, 0, [], .networkReply [] 404, 9⟩]).2.2
      = [(fetchingJob.m_filePath, "status code was not 200".toList)] :=
  ⟨rfl,
    (fetchFinished_decision fetchingJob ⟨exampleDisk, 1⟩
      ⟨0, 0, [], .networkReply "http://y/img2.png".toList 302, 0⟩ rfl rfl).2.2.2
      "http://y/img2.png".toList 302 ⟨1, 0, [], .networkReply [] 404, 9⟩
      rfl (by decide) (by decide) rfl rfl rfl rfl⟩

theorem openWriteOnly_size (d : Disk) (p : QString) (h : d.writable p = true) :
    (d.openWriteOnly p).2.size p = some 0 := by
  simp [Disk.openWriteOnly, h]

/-- C4, as amended: a failure reported when a copy completes (copy error,
too many redirects, status other than 200) leaves the destination path
existing with length zero when its terminal event is emitted, provided the
path can be opened for writing. When `gotData` cannot open the destination,
the terminal event "Failed to create cache file" is emitted and the file
system is as before: no marker is written. -/
theorem failure_marker (j : DownloadAlbumArtJob) (w : World) :
    (w.disk.writable j.m_filePath = true →
      ∀ (k : KJob) (f e : QString),
        Effect.finished f e ∈ (j.step w (.copyResult k)).effects → e ≠ [] →
        f = j.m_filePath
        ∧ (j.step w (.copyResult k)).world.disk.size j.m_filePath = some 0)
    ∧ (w.disk.writable j.m_filePath = false → j.m_fileTransfer = none →
      ∀ p : QIODevice,
        j.gotData w (some p)
          = ⟨false, j, w, [.finished j.m_filePath "Failed to create cache file".toList]⟩) := by
  constructor
  · intro hw k f e hmem he
    by_cases hcur : j.m_fileTransfer = some k.id
    · have hw1 : (w.disk.written j.m_filePath k.processedBytes).writable j.m_filePath = true := hw
      have hmark : ((w.disk.written j.m_filePath k.processedBytes).openWriteOnly
          j.m_filePath).2.size j.m_filePath = some 0 := openWriteOnly_size _ _ hw1
      rw [step_current j w k hcur] at hmem ⊢
      by_cases herr : k.error = 0
      · cases hsrc : k.source with
        | networkReply location status =>
          by_cases hloc : location = []
          · subst hloc
            by_cases hst : status = 200
            · subst hst
              rw [fetchFinished_ok j _ k hcur herr (Or.inl hsrc)] at hmem
              simp at hmem
              exact absurd hmem.2 he
            · rw [fetchFinished_status j _ k status hcur herr hsrc hst] at hmem ⊢
              simp [DownloadAlbumArtJob.failed] at hmem
              exact ⟨hmem.1, hmark⟩
          · by_cases hcount : j.m_redirectCount + 1 ≤ 10
            · rw [fetchFinished_redirect j _ k location status hcur herr hsrc hloc hcount,
                gotData_started j.redirected
                  ⟨w.disk.written j.m_filePath k.processedBytes, w.nextCopy⟩
                  .networkReply rfl hw1] at hmem
              simp at hmem
            · rw [fetchFinished_tooMany j _ k location status hcur herr hsrc hloc
                (by omega)] at hmem ⊢
              simp [DownloadAlbumArtJob.failed] at hmem
              exact ⟨hmem.1, hmark⟩
        | other =>
          rw [fetchFinished_ok j _ k hcur herr (Or.inr hsrc)] at hmem
          simp at hmem
          exact absurd hmem.2 he
      · rw [fetchFinished_copyError j _ k hcur herr] at hmem ⊢
        simp [DownloadAlbumArtJob.failed] at hmem
        exact ⟨hmem.1, hmark⟩
    · have hne : some k.id ≠ j.m_fileTransfer := fun h => hcur h.symm
      have hstep : j.step w (.copyResult k) = j.fetchFinished w k := by
        simp [DownloadAlbumArtJob.step, hne]
      rw [hstep, fetchFinished_other j w k hne] at hmem
      simp at hmem
  · intro hw hfresh p
    exact gotData_unwritable j w p hfresh hw

/-- C4, counterexample: a null payload given to the example job ends it with
"Empty payload" and no file at the destination; and when the destination
cannot be opened the job ends with "Failed to create cache file" and no
file at the destination. -/
theorem failure_without_marker :
    ((exampleJob.gotData exampleWorld none).effects
        = [.finished exampleJob.m_filePath "Empty payload".toList]
      ∧ (exampleJob.gotData exampleWorld none).world.disk.size exampleJob.m_filePath = none)
    ∧ ((exampleJob.gotData lockedWorld (some .networkReply)).effects
        = [.finished exampleJob.m_filePath "Failed to create cache file".toList]
      ∧ (exampleJob.gotData lockedWorld (some .networkReply)).world.disk.size
          exampleJob.m_filePath = none) :=
  ⟨⟨rfl, rfl⟩, ⟨rfl, rfl⟩⟩

/-- While the job has a transfer whose result is not among the events, the
events change nothing and emit nothing. -/
theorem run_quiet_fetching (es : List JobEvent) :
    ∀ (j : DownloadAlbumArtJob) (w : World) (i : Nat),
      j.m_fileTransfer = some i → i ∉ copyResultIds es →
      terminalEvents (j.run w es).2.2 = [] := by
  induction es with
  | nil => intro j w i _ _; rfl
  | cons e es ih =>
    intro j w i hcur hid
    cases e with
    | gotData payload =>
      have hstep : j.step w (.gotData payload) = ⟨false, j, w, []⟩ :=
        gotData_fetching j w payload i hcur
      rw [run_cons, hstep]
      exact ih j w i hcur (by simpa [copyResultIds] using hid)
    | copyResult k =>
      have hk : k.id ≠ i := by
        intro e; apply hid; simp [copyResultIds, e]
      have hne : some k.id ≠ j.m_fileTransfer := by rw [hcur]; simpa using hk
      have hstep : j.step w (.copyResult k) = ⟨false, j, w, []⟩ := by
        simp [DownloadAlbumArtJob.step, hne, fetchFinished_other j w k hne]
      rw [run_cons, hstep]
      exact ih j w i hcur (by
        intro hm; apply hid; simp [copyResultIds, hm])

/-- While the job has no transfer, results of copies emit nothing. -/
theorem run_quiet_idle (es : List JobEvent) :
    ∀ (j : DownloadAlbumArtJob) (w : World),
      j.m_fileTransfer = none → (∀ e ∈ es, e.isGotData = false) →
      terminalEvents (j.run w es).2.2 = [] := by
  induction es with
  | nil => intro j w _ _; rfl
  | cons e es ih =>
    intro j w hcur hall
    cases e with
    | gotData payload =>
      have := hall (.gotData payload) (List.mem_cons_self _ _)
      simp [JobEvent.isGotData] at this
    | copyResult k =>
      have hne : some k.id ≠ j.m_fileTransfer := by rw [hcur]; simp
      have hstep : j.step w (.copyResult k) = ⟨false, j, w, []⟩ := by
        simp [DownloadAlbumArtJob.step, hne, fetchFinished_other j w k hne]
      rw [run_cons, hstep]
      exact ih j w hcur (fun e he => hall e (List.mem_cons_of_mem _ he))

/-- One event emits no terminal event, or exactly one; in the latter case
the job is left without transfer, or with the transfer whose result the
event was. -/
theorem step_emits (j : DownloadAlbumArtJob) (w : World) (e : JobEvent) :
    terminalEvents (j.step w e).effects = []
    ∨ ((terminalEvents (j.step w e).effects).length = 1
        ∧ ((j.step w e).job.m_fileTransfer = none
          ∨ ∃ k, e = .copyResult k ∧ (j.step w e).job.m_fileTransfer = some k.id)) := by
  cases e with
  | gotData payload =>
    cases hcur : j.m_fileTransfer with
    | some i =>
      left
      show terminalEvents (j.gotData w payload).effects = []
      rw [gotData_fetching j w payload i hcur]; rfl
    | none =>
      cases payload with
      | none =>
        right
        show (terminalEvents (j.gotData w none).effects).length = 1
          ∧ ((j.gotData w none).job.m_fileTransfer = none ∨ _)
        rw [gotData_null j w hcur]
        exact ⟨rfl, Or.inl hcur⟩
      | some p =>
        cases hw : w.disk.writable j.m_filePath
        · right
          show (terminalEvents (j.gotData w (some p)).effects).length = 1
            ∧ ((j.gotData w (some p)).job.m_fileTransfer = none ∨ _)
          rw [gotData_unwritable j w p hcur hw]
          exact ⟨rfl, Or.inl hcur⟩
        · left
          show terminalEvents (j.gotData w (some p)).effects = []
          rw [gotData_started j w p hcur hw]; rfl
  | copyResult k =>
    by_cases hcur : j.m_fileTransfer = some k.id
    · rw [step_current j w k hcur]
      generalize (⟨w.disk.written j.m_filePath k.processedBytes, w.nextCopy⟩ : World) = w1
      by_cases herr : k.error = 0
      · cases hsrc : k.source with
        | networkReply location status =>
          by_cases hloc : location = []
          · subst hloc
            right
            by_cases hst : status = 200
            · subst hst
              rw [fetchFinished_ok j _ k hcur herr (Or.inl hsrc)]
              exact ⟨rfl, Or.inr ⟨k, rfl, hcur⟩⟩
            · rw [fetchFinished_status j _ k status hcur herr hsrc hst]
              exact ⟨rfl, Or.inr ⟨k, rfl, hcur⟩⟩
          · by_cases hcount : j.m_redirectCount + 1 ≤ 10
            · rw [fetchFinished_redirect j _ k location status hcur herr hsrc hloc hcount]
              cases hw : w1.disk.writable j.m_filePath
              · right
                rw [gotData_unwritable j.redirected w1 .networkReply rfl hw]
                exact ⟨rfl, Or.inl rfl⟩
              · left
                rw [gotData_started j.redirected w1 .networkReply rfl hw]
                rfl
            · right
              rw [fetchFinished_tooMany j _ k location status hcur herr hsrc hloc (by omega)]
              exact ⟨rfl, Or.inr ⟨k, rfl, hcur⟩⟩
        | other =>
          right
          rw [fetchFinished_ok j _ k hcur herr (Or.inr hsrc)]
          exact ⟨rfl, Or.inr ⟨k, rfl, hcur⟩⟩
      · right
        rw [fetchFinished_copyError j _ k hcur herr]
        exact ⟨rfl, Or.inr ⟨k, rfl, hcur⟩⟩
    · left
      have hne : some k.id ≠ j.m_fileTransfer := fun h => hcur h.symm
      have hstep : j.step w (.copyResult k) = ⟨false, j, w, []⟩ := by
        simp [DownloadAlbumArtJob.step, hne, fetchFinished_other j w k hne]
      rw [hstep]; rfl

/-- C5, as amended: in every sequence of `gotData` calls and copy results in
which every copy reports its result at most once and `gotData` is not called
again once a terminal event has been emitted, the job emits at most one
terminal event, however many redirects it follows. -/
theorem finished_at_most_once (es : List JobEvent) :
    ∀ (j : DownloadAlbumArtJob) (w : World),
      (copyResultIds es).Nodup →
      (∀ pre e post, es = pre ++ e :: post → e.isGotData = true →
        terminalEvents (j.run w pre).2.2 = []) →
      (terminalEvents (j.run w es).2.2).length ≤ 1 := by
  induction es with
  | nil => intro j w _ _; simp [DownloadAlbumArtJob.run, terminalEvents]
  | cons e es ih =>
    intro j w hnodup hquiet
    rw [run_cons, terminalEvents_append, List.length_append]
    have htail : (copyResultIds es).Nodup := by
      cases e with
      | gotData p => simpa [copyResultIds] using hnodup
      | copyResult k => exact (List.nodup_cons.mp (by simpa [copyResultIds] using hnodup)).2
    rcases step_emits j w e with hnone | ⟨hone, hstate⟩
    · rw [hnone]
      simp only [List.length_nil, Nat.zero_add]
      apply ih _ _ htail
      intro pre e1 post hes he1
      have := hquiet (e :: pre) e1 post (by rw [hes]; rfl) he1
      rw [run_cons, terminalEvents_append, hnone] at this
      simpa using this
    · have hgot : ∀ e1 ∈ es, e1.isGotData = false := by
        intro e1 he1
        cases hb : e1.isGotData with
        | false => rfl
        | true =>
          obtain ⟨pre, post, hsplit⟩ := List.append_of_mem he1
          have := hquiet (e :: pre) e1 post (by rw [hsplit]; rfl) hb
          rw [run_cons, terminalEvents_append] at this
          have hl := congrArg List.length this
          rw [List.length_append, hone] at hl
          simp at hl
      have hrest : terminalEvents
          (DownloadAlbumArtJob.run (j.step w e).job (j.step w e).world es).2.2 = [] := by
        rcases hstate with hidle | ⟨k, hk, hcur⟩
        · exact run_quiet_idle es _ _ hidle hgot
        · apply run_quiet_fetching es _ _ k.id hcur
          subst hk
          exact (List.nodup_cons.mp (by simpa [copyResultIds] using hnodup)).1
      rw [hrest, hone]
      simp

/-- C5, counterexample: two calls of `gotData` with a null payload on the
example job emit two terminal events. -/
theorem finished_twice :
    terminalEvents (exampleJob.run exampleWorld [.gotData none, .gotData none]).2.2
      = [(exampleJob.m_filePath, "Empty payload".toList),
         (exampleJob.m_filePath, "Empty payload".toList)] := rfl

/-! ## The store -/

theorem fetchFinished_exclusive (c : AlbumArtCache) (job : DownloadAlbumArtJob)
    (f e : QString) (h : c.Exclusive) : (c.fetchFinished job f e).Exclusive := by
  intro key
  unfold AlbumArtCache.fetchFinished
  by_cases he : e = []
  · by_cases hk : key = job.m_hash
    · simp [he, hk, QHash.remove]
    · have := h key
      simpa [he, hk, QHash.remove, QHash.insert] using this
  · by_cases hk : key = job.m_hash
    · simp [he, hk, QHash.remove]
    · have := h key
      simpa [he, hk, QHash.remove] using this

theorem deliver_exclusive (effects : List Effect) :
    ∀ (c : AlbumArtCache) (job : DownloadAlbumArtJob), c.Exclusive →
      (c.deliver job effects).Exclusive := by
  induction effects with
  | nil => intro c job h; exact h
  | cons x xs ih =>
    intro c job h
    cases x with
    | finished f e => exact ih _ job (fetchFinished_exclusive c job f e h)
    | networkGet l => exact ih c job h
    | copyStarted i p => exact ih c job h

theorem scan_exclusive (files : List DirEntry) :
    ∀ c : AlbumArtCache, (∀ key, c.m_fetching key = none) →
      ∀ key, (c.scan files).m_fetching key = none := by
  induction files with
  | nil => intro c h; exact h
  | cons f fs ih => intro c h; exact ih _ h

theorem init_exclusive (cacheLocation deviceId : QString) (mkpathOk : Bool)
    (files : List DirEntry) (disk : Disk) :
    (System.init cacheLocation deviceId mkpathOk files disk).cache.Exclusive := by
  intro key
  have hf : (AlbumArtCache.new cacheLocation deviceId mkpathOk files).m_fetching key = none := by
    unfold AlbumArtCache.new
    cases mkpathOk
    · rfl
    · exact scan_exclusive files _ (fun _ => rfl) key
  simp [System.init, hf]

theorem startFetching_exclusive (qt : Qt) (s : System) (originalUrl playerName : QString)
    (h : s.cache.Exclusive) :
    (s.startFetching qt originalUrl playerName).system.cache.Exclusive := by
  unfold System.startFetching
  by_cases h0 : originalUrl = []
  · simpa [h0] using h
  · simp only [h0, if_false]
    cases hd : s.cache.m_diskCache (hashFor qt (qt.parseUrl originalUrl)) with
    | some file => simpa using h
    | none =>
      cases hf : s.cache.m_fetching (hashFor qt (qt.parseUrl originalUrl)) with
      | some ptr => simpa using h
      | none =>
        have hins : AlbumArtCache.Exclusive
            { s.cache with
              m_fetching := QHash.insert s.cache.m_fetching
                (hashFor qt (qt.parseUrl originalUrl)) s.nextJob } := by
          intro key
          by_cases hk : key = hashFor qt (qt.parseUrl originalUrl)
          · simp [hk, hd]
          · have := h key
            simpa [QHash.insert, hk] using this
        simp only [Option.isSome_none, Bool.or_self, Bool.false_eq_true, if_false]
        split
        · exact deliver_exclusive _ _ _ hins
        · exact hins

theorem step_exclusive (qt : Qt) (s : System) (e : Event) (h : s.cache.Exclusive) :
    (s.step qt e).cache.Exclusive := by
  cases e with
  | startFetching originalUrl playerName =>
    exact startFetching_exclusive qt s originalUrl playerName h
  | endFetching url payload =>
    show (s.endFetching qt url payload).cache.Exclusive
    unfold System.endFetching
    split
    · exact h
    · split
      · exact h
      · exact deliver_exclusive _ _ _ h
  | copyResult ptr k =>
    show (s.copyResult ptr k).cache.Exclusive
    unfold System.copyResult
    split
    · exact h
    · exact deliver_exclusive _ _ _ h
  | finished ptr f e =>
    show (s.finished ptr f e).cache.Exclusive
    unfold System.finished
    split
    · exact h
    · exact fetchFinished_exclusive _ _ f e h

theorem run_exclusive (qt : Qt) (es : List Event) :
    ∀ s : System, s.cache.Exclusive → (s.run qt es).cache.Exclusive := by
  induction es with
  | nil => intro s h; exact h
  | cons e es ih => intro s h; exact ih _ (step_exclusive qt s e h)

/-- C2: in every state reached from the constructor by calls of
`startFetching` and `endFetching`, by results of copies (with the terminal
events they make the jobs emit) and by terminal events of jobs, no key is
both in `m_diskCache` and in `m_fetching`. -/
theorem cache_inflight_exclusive (qt : Qt) (cacheLocation deviceId : QString)
    (mkpathOk : Bool) (files : List DirEntry) (disk : Disk) (events : List Event)
    (key : QString) :
    ¬ ((((System.init cacheLocation deviceId mkpathOk files disk).run qt events).cache.m_diskCache
          key).isSome = true
      ∧ (((System.init cacheLocation deviceId mkpathOk files disk).run qt events).cache.m_fetching
          key).isSome = true) :=
  run_exclusive qt events _ (init_exclusive cacheLocation deviceId mkpathOk files disk) key

theorem startFetching_none (qt : Qt) (s : System) (originalUrl playerName : QString)
    (h : originalUrl = []
      ∨ (s.cache.m_diskCache (hashFor qt (qt.parseUrl originalUrl))).isSome = true
      ∨ (s.cache.m_fetching (hashFor qt (qt.parseUrl originalUrl))).isSome = true) :
    s.startFetching qt originalUrl playerName = ⟨none, s, []⟩ := by
  unfold System.startFetching
  by_cases h0 : originalUrl = []
  · simp [h0]
  · rcases h with h | h | h
    · exact absurd h h0
    · simp [h0, h]
    · simp [h0, h]

theorem startFetchingTimes_none (qt : Qt) (s : System) (originalUrl playerName : QString)
    (h : originalUrl = []
      ∨ (s.cache.m_diskCache (hashFor qt (qt.parseUrl originalUrl))).isSome = true
      ∨ (s.cache.m_fetching (hashFor qt (qt.parseUrl originalUrl))).isSome = true)
    (n : Nat) :
    System.startFetchingTimes qt s originalUrl playerName n = (List.replicate n none, s) := by
  induction n with
  | zero => rfl
  | succ n ih =>
    simp only [System.startFetchingTimes, startFetching_none qt s originalUrl playerName h, ih,
      List.replicate_succ]

theorem startFetching_local (qt : Qt) (s : System) (originalUrl playerName : QString)
    (h0 : originalUrl ≠ [])
    (hd : s.cache.m_diskCache (hashFor qt (qt.parseUrl originalUrl)) = none)
    (hf : s.cache.m_fetching (hashFor qt (qt.parseUrl originalUrl)) = none)
    (hl : (qt.parseUrl originalUrl).localFile = true) :
    s.startFetching qt originalUrl playerName
      = ⟨some s.nextJob,
          { cache := { s.cache with
              m_fetching := QHash.insert s.cache.m_fetching
                (hashFor qt (qt.parseUrl originalUrl)) s.nextJob },
            jobs := fun p => if p = s.nextJob then
              some (DownloadAlbumArtJob.new qt (qt.parseUrl originalUrl)
                (cacheFileFor qt s.cache.m_cacheDir (qt.parseUrl originalUrl)))
              else s.jobs p,
            nextJob := s.nextJob + 1, world := s.world },
          [.requestAlbumArt originalUrl playerName]⟩ := by
  simp [System.startFetching, h0, hd, hf, hl]

theorem startFetching_remote (qt : Qt) (s : System) (originalUrl playerName : QString)
    (h0 : originalUrl ≠ [])
    (hd : s.cache.m_diskCache (hashFor qt (qt.parseUrl originalUrl)) = none)
    (hf : s.cache.m_fetching (hashFor qt (qt.parseUrl originalUrl)) = none)
    (hl : (qt.parseUrl originalUrl).localFile = false)
    (hw : s.world.disk.writable
      (cacheFileFor qt s.cache.m_cacheDir (qt.parseUrl originalUrl)) = true) :
    s.startFetching qt originalUrl playerName
      = ⟨some s.nextJob,
          { cache := { s.cache with
              m_fetching := QHash.insert s.cache.m_fetching
                (hashFor qt (qt.parseUrl originalUrl)) s.nextJob },
            jobs := fun p => if p = s.nextJob then
              some { DownloadAlbumArtJob.new qt (qt.parseUrl originalUrl)
                  (cacheFileFor qt s.cache.m_cacheDir (qt.parseUrl originalUrl)) with
                m_fileTransfer := some s.world.nextCopy }
              else s.jobs p,
            nextJob := s.nextJob + 1,
            world := ⟨(s.world.disk.openWriteOnly
                (cacheFileFor qt s.cache.m_cacheDir (qt.parseUrl originalUrl))).2,
              s.world.nextCopy + 1⟩ },
          [.networkGet (qt.parseUrl originalUrl)]⟩ := by
  have hg := gotData_started
    (DownloadAlbumArtJob.new qt (qt.parseUrl originalUrl)
      (cacheFileFor qt s.cache.m_cacheDir (qt.parseUrl originalUrl)))
    s.world .networkReply rfl hw
  simp only [System.startFetching, h0, hd, hf, hl, hg, if_false, Option.isSome_none,
    Bool.or_self, Bool.false_eq_true, Bool.not_false, if_true]
  rfl

theorem startFetching_unwritable (qt : Qt) (s : System) (originalUrl playerName : QString)
    (h0 : originalUrl ≠ [])
    (hd : s.cache.m_diskCache (hashFor qt (qt.parseUrl originalUrl)) = none)
    (hf : s.cache.m_fetching (hashFor qt (qt.parseUrl originalUrl)) = none)
    (hl : (qt.parseUrl originalUrl).localFile = false)
    (hw : s.world.disk.writable
      (cacheFileFor qt s.cache.m_cacheDir (qt.parseUrl originalUrl)) = false) :
    s.startFetching qt originalUrl playerName
      = ⟨some s.nextJob,
          { cache := { s.cache with
              m_fetching := QHash.remove
                (QHash.insert s.cache.m_fetching
                  (hashFor qt (qt.parseUrl originalUrl)) s.nextJob)
                (hashFor qt (qt.parseUrl originalUrl)) },
            jobs := fun p => if p = s.nextJob then
              some (DownloadAlbumArtJob.new qt (qt.parseUrl originalUrl)
                (cacheFileFor qt s.cache.m_cacheDir (qt.parseUrl originalUrl)))
              else s.jobs p,
            nextJob := s.nextJob + 1, world := s.world },
          [.networkGet (qt.parseUrl originalUrl)]⟩ := by
  have hg := gotData_unwritable
    (DownloadAlbumArtJob.new qt (qt.parseUrl originalUrl)
      (cacheFileFor qt s.cache.m_cacheDir (qt.parseUrl originalUrl)))
    s.world .networkReply rfl hw
  simp only [System.startFetching, h0, hd, hf, hl, hg, if_false, Option.isSome_none,
    Bool.or_self, Bool.false_eq_true, Bool.not_false, if_true]
  rfl

theorem startFetching_some (qt : Qt) (s : System) (originalUrl playerName : QString)
    (h0 : originalUrl ≠ [])
    (hd : s.cache.m_diskCache (hashFor qt (qt.parseUrl originalUrl)) = none)
    (hf : s.cache.m_fetching (hashFor qt (qt.parseUrl originalUrl)) = none) :
    (s.startFetching qt originalUrl playerName).job = some s.nextJob
    ∧ (s.startFetching qt originalUrl playerName).system.nextJob = s.nextJob + 1
    ∧ (∃ job, (s.startFetching qt originalUrl playerName).system.jobs s.nextJob = some job
        ∧ job.m_hash = hashFor qt (qt.parseUrl originalUrl)
        ∧ job.m_filePath = cacheFileFor qt s.cache.m_cacheDir (qt.parseUrl originalUrl))
    ∧ (s.startFetching qt originalUrl playerName).system.cache.m_diskCache
        = s.cache.m_diskCache
    ∧ (s.startFetching qt originalUrl playerName).system.cache.m_diskCacheSize
        = s.cache.m_diskCacheSize
    ∧ (∀ key, (s.startFetching qt originalUrl playerName).system.cache.m_fetching key
        = if key = hashFor qt (qt.parseUrl originalUrl)
            ∧ ((qt.parseUrl originalUrl).localFile = true
              ∨ s.world.disk.writable
                  (cacheFileFor qt s.cache.m_cacheDir (qt.parseUrl originalUrl)) = true)
          then some s.nextJob else s.cache.m_fetching key) := by
  cases hl : (qt.parseUrl originalUrl).localFile
  · cases hw : s.world.disk.writable
        (cacheFileFor qt s.cache.m_cacheDir (qt.parseUrl originalUrl))
    · rw [startFetching_unwritable qt s originalUrl playerName h0 hd hf hl hw]
      refine ⟨rfl, rfl, ⟨_, if_pos rfl, rfl, rfl⟩, rfl, rfl, ?_⟩
      intro key
      by_cases hk : key = hashFor qt (qt.parseUrl originalUrl)
      · subst hk
        simp [QHash.remove, hf]
      · simp [QHash.remove, QHash.insert, hk]
    · rw [startFetching_remote qt s originalUrl playerName h0 hd hf hl hw]
      refine ⟨rfl, rfl, ⟨_, if_pos rfl, rfl, rfl⟩, rfl, rfl, ?_⟩
      intro key
      by_cases hk : key = hashFor qt (qt.parseUrl originalUrl)
      · simp [QHash.insert, hk]
      · simp [QHash.insert, hk]
  · rw [startFetching_local qt s originalUrl playerName h0 hd hf hl]
    refine ⟨rfl, rfl, ⟨_, if_pos rfl, rfl, rfl⟩, rfl, rfl, ?_⟩
    intro key
    by_cases hk : key = hashFor qt (qt.parseUrl originalUrl)
    · simp [QHash.insert, hk]
    · simp [QHash.insert, hk]

/-- C1, as amended: `startFetching` returns no job exactly when the URL is
empty, or its key is in `m_diskCache`, or its key is in `m_fetching`, and
then nothing changes. Otherwise it returns a new job for that key;
`m_diskCache` and the size total are unchanged; `m_fetching` gains exactly
the entry of the key, except when the URL is remote and the destination file
cannot be opened: then the job fails inside the call and `m_fetching` is as
before. When the key is in flight (or cached, or the URL empty) after the
first of `n + 1` calls, the other `n` calls return nothing and change
nothing. -/
theorem startFetching_spec (qt : Qt) (s : System) (originalUrl playerName : QString) :
    ((s.startFetching qt originalUrl playerName).job = none ↔
      (originalUrl = []
        ∨ (s.cache.m_diskCache (hashFor qt (qt.parseUrl originalUrl))).isSome = true
        ∨ (s.cache.m_fetching (hashFor qt (qt.parseUrl originalUrl))).isSome = true))
    ∧ ((s.startFetching qt originalUrl playerName).job = none →
        (s.startFetching qt originalUrl playerName).system = s)
    ∧ ((s.startFetching qt originalUrl playerName).job ≠ none →
        (s.startFetching qt originalUrl playerName).job = some s.nextJob
        ∧ (s.startFetching qt originalUrl playerName).system.nextJob = s.nextJob + 1
        ∧ (∃ job, (s.startFetching qt originalUrl playerName).system.jobs s.nextJob = some job
            ∧ job.m_hash = hashFor qt (qt.parseUrl originalUrl)
            ∧ job.m_filePath = cacheFileFor qt s.cache.m_cacheDir (qt.parseUrl originalUrl))
        ∧ (s.startFetching qt originalUrl playerName).system.cache.m_diskCache
            = s.cache.m_diskCache
        ∧ (s.startFetching qt originalUrl playerName).system.cache.m_diskCacheSize
            = s.cache.m_diskCacheSize
        ∧ (∀ key, (s.startFetching qt originalUrl playerName).system.cache.m_fetching key
            = if key = hashFor qt (qt.parseUrl originalUrl)
                ∧ ((qt.parseUrl originalUrl).localFile = true
                  ∨ s.world.disk.writable
                      (cacheFileFor qt s.cache.m_cacheDir (qt.parseUrl originalUrl)) = true)
              then some s.nextJob else s.cache.m_fetching key))
    ∧ (∀ n : Nat,
        (originalUrl = []
          ∨ ((s.startFetching qt originalUrl playerName).system.cache.m_diskCache
              (hashFor qt (qt.parseUrl originalUrl))).isSome = true
          ∨ ((s.startFetching qt originalUrl playerName).system.cache.m_fetching
              (hashFor qt (qt.parseUrl originalUrl))).isSome = true) →
        System.startFetchingTimes qt s originalUrl playerName (n + 1)
          = ((s.startFetching qt originalUrl playerName).job :: List.replicate n none,
             (s.startFetching qt originalUrl playerName).system)) := by
  by_cases h : originalUrl = []
      ∨ (s.cache.m_diskCache (hashFor qt (qt.parseUrl originalUrl))).isSome = true
      ∨ (s.cache.m_fetching (hashFor qt (qt.parseUrl originalUrl))).isSome = true
  · have hnone := startFetching_none qt s originalUrl playerName h
    refine ⟨?_, ?_, ?_, ?_⟩
    · rw [hnone]; exact ⟨fun _ => h, fun _ => rfl⟩
    · intro _; rw [hnone]
    · intro hjob; rw [hnone] at hjob; exact absurd rfl hjob
    · intro n hn
      simp only [System.startFetchingTimes]
      rw [startFetchingTimes_none qt _ originalUrl playerName hn n]
  · have h0 : originalUrl ≠ [] := fun e => h (Or.inl e)
    have hd : s.cache.m_diskCache (hashFor qt (qt.parseUrl originalUrl)) = none := by
      cases hx : s.cache.m_diskCache (hashFor qt (qt.parseUrl originalUrl)) with
      | none => rfl
      | some v => exact absurd (Or.inr (Or.inl (by simp [hx]))) h
    have hf : s.cache.m_fetching (hashFor qt (qt.parseUrl originalUrl)) = none := by
      cases hx : s.cache.m_fetching (hashFor qt (qt.parseUrl originalUrl)) with
      | none => rfl
      | some v => exact absurd (Or.inr (Or.inr (by simp [hx]))) h
    have hsome := startFetching_some qt s originalUrl playerName h0 hd hf
    refine ⟨?_, ?_, fun _ => hsome, ?_⟩
    · constructor
      · intro hj; rw [hsome.1] at hj; exact absurd hj (by simp)
      · intro hh; exact absurd hh h
    · intro hj; rw [hsome.1] at hj; exact absurd hj (by simp)
    · intro n hn
      simp only [System.startFetchingTimes]
      rw [startFetchingTimes_none qt _ originalUrl playerName hn n]

/-- C1, counterexample: on a cache whose directory could not be created,
`startFetching("http://x/img.png", "player")` finds the key neither cached
nor in flight and returns a job, yet the key is not in `m_fetching`
afterwards: the job failed with "Failed to create cache file" inside the
call. A second call returns another job. -/
theorem startFetching_job_without_entry :
    lockedSystem.cache.m_diskCache
        (hashFor exampleQt (exampleQt.parseUrl "http://x/img.png".toList)) = none
    ∧ lockedSystem.cache.m_fetching
        (hashFor exampleQt (exampleQt.parseUrl "http://x/img.png".toList)) = none
    ∧ (lockedSystem.startFetching exampleQt "http://x/img.png".toList "player".toList).job
        = some 0
    ∧ (lockedSystem.startFetching exampleQt "http://x/img.png".toList
          "player".toList).system.cache.m_fetching
        (hashFor exampleQt (exampleQt.parseUrl "http://x/img.png".toList)) = none
    ∧ (System.startFetchingTimes exampleQt lockedSystem "http://x/img.png".toList
          "player".toList 2).1 = [some 0, some 1] := by
  have h0 : "http://x/img.png".toList ≠ [] := by decide
  have hl : (exampleQt.parseUrl "http://x/img.png".toList).localFile = false := by decide
  have e1 := startFetching_unwritable exampleQt lockedSystem "http://x/img.png".toList
    "player".toList h0 rfl rfl hl rfl
  refine ⟨rfl, rfl, ?_, ?_, ?_⟩
  · rw [e1]; rfl
  · rw [e1]; simp [QHash.remove]
  · simp only [System.startFetchingTimes]
    rw [e1]
    simp only []
    rw [startFetching_unwritable exampleQt _ "http://x/img.png".toList
      "player".toList h0 rfl (by simp [QHash.remove]) hl rfl]
    rfl

theorem fetchFinished_of_exclusive (qt : Qt) (c : AlbumArtCache) (job : DownloadAlbumArtJob)
    (cacheFile errorString : QString)
    (hin : (c.m_fetching job.m_hash).isSome = true) (hex : c.Exclusive) :
    (c.fetchFinished job cacheFile errorString).m_fetching job.m_hash = none
    ∧ (∀ key, key ≠ job.m_hash →
        (c.fetchFinished job cacheFile errorString).m_fetching key = c.m_fetching key)
    ∧ (errorString = [] →
        (c.fetchFinished job cacheFile errorString).m_diskCache job.m_hash
          = some job.fileName
        ∧ (∀ key, key ≠ job.m_hash →
            (c.fetchFinished job cacheFile errorString).m_diskCache key = c.m_diskCache key)
        ∧ (c.fetchFinished job cacheFile errorString).m_diskCacheSize
          = c.m_diskCacheSize + job.m_fileSize)
    ∧ (errorString ≠ [] →
        (c.fetchFinished job cacheFile errorString).m_diskCache = c.m_diskCache
        ∧ (c.fetchFinished job cacheFile errorString).m_diskCacheSize = c.m_diskCacheSize
        ∧ (c.fetchFinished job cacheFile errorString).m_diskCache job.m_hash = none
        ∧ (∀ (s : System) (originalUrl playerName : QString),
            s.cache = c.fetchFinished job cacheFile errorString →
            originalUrl ≠ [] → hashFor qt (qt.parseUrl originalUrl) = job.m_hash →
            (s.startFetching qt originalUrl playerName).job = some s.nextJob
            ∧ (s.startFetching qt originalUrl playerName).system.nextJob
              = s.nextJob + 1)) := by
  have hdisk : c.m_diskCache job.m_hash = none := by
    cases hx : c.m_diskCache job.m_hash with
    | none => rfl
    | some v => exact absurd ⟨by simp [hx], hin⟩ (hex job.m_hash)
  refine ⟨?_, ?_, ?_, ?_⟩
  · unfold AlbumArtCache.fetchFinished
    split <;> simp [QHash.remove]
  · intro key hk
    unfold AlbumArtCache.fetchFinished
    split <;> simp [QHash.remove, hk]
  · intro he
    subst he
    refine ⟨?_, ?_, ?_⟩
    · simp [AlbumArtCache.fetchFinished, QHash.insert]
    · intro key hk
      simp [AlbumArtCache.fetchFinished, QHash.insert, hk]
    · simp [AlbumArtCache.fetchFinished]
  · intro he
    have hc : c.fetchFinished job cacheFile errorString
        = { c with m_fetching := QHash.remove c.m_fetching job.m_hash } := by
      simp [AlbumArtCache.fetchFinished, he]
    rw [hc]
    refine ⟨rfl, rfl, hdisk, ?_⟩
    intro s originalUrl playerName hs h0 hkey
    have hd : s.cache.m_diskCache (hashFor qt (qt.parseUrl originalUrl)) = none := by
      rw [hs, hkey]; exact hdisk
    have hf : s.cache.m_fetching (hashFor qt (qt.parseUrl originalUrl)) = none := by
      rw [hs, hkey]; simp [QHash.remove]
    have hsome := startFetching_some qt s originalUrl playerName h0 hd hf
    exact ⟨hsome.1, hsome.2.1⟩

theorem reachable_exclusive (qt : Qt) (s : System) (h : s.Reachable qt) :
    s.cache.Exclusive := by
  obtain ⟨cacheLocation, deviceId, mkpathOk, files, disk, events, rfl⟩ := h
  exact run_exclusive qt events _ (init_exclusive cacheLocation deviceId mkpathOk files disk)

/-- C6: in every state of the store, reached from the constructor, in which
the key of a job is in flight, the slot for the job's terminal event removes
the key from `m_fetching` and leaves the other keys. With an empty error
message it puts the key into `m_diskCache` with the job's file name and adds
the job's `m_fileSize` to the size total. With a non-empty error message
`m_diskCache` and the size total are unchanged, the key is in neither map,
and a later `startFetching` for a non-empty URL with this key returns a new
job. -/
theorem fetchFinished_spec (qt : Qt) (s : System) (job : DownloadAlbumArtJob)
    (cacheFile errorString : QString)
    (hs : s.Reachable qt) (hin : (s.cache.m_fetching job.m_hash).isSome = true) :
    (s.cache.fetchFinished job cacheFile errorString).m_fetching job.m_hash = none
    ∧ (∀ key, key ≠ job.m_hash →
        (s.cache.fetchFinished job cacheFile errorString).m_fetching key
          = s.cache.m_fetching key)
    ∧ (errorString = [] →
        (s.cache.fetchFinished job cacheFile errorString).m_diskCache job.m_hash
          = some job.fileName
        ∧ (∀ key, key ≠ job.m_hash →
            (s.cache.fetchFinished job cacheFile errorString).m_diskCache key
              = s.cache.m_diskCache key)
        ∧ (s.cache.fetchFinished job cacheFile errorString).m_diskCacheSize
          = s.cache.m_diskCacheSize + job.m_fileSize)
    ∧ (errorString ≠ [] →
        (s.cache.fetchFinished job cacheFile errorString).m_diskCache = s.cache.m_diskCache
        ∧ (s.cache.fetchFinished job cacheFile errorString).m_diskCacheSize
          = s.cache.m_diskCacheSize
        ∧ (s.cache.fetchFinished job cacheFile errorString).m_diskCache job.m_hash = none
        ∧ (∀ (later : System) (originalUrl playerName : QString),
            later.cache = s.cache.fetchFinished job cacheFile errorString →
            originalUrl ≠ [] → hashFor qt (qt.parseUrl originalUrl) = job.m_hash →
            (later.startFetching qt originalUrl playerName).job = some later.nextJob
            ∧ (later.startFetching qt originalUrl playerName).system.nextJob
              = later.nextJob + 1)) :=
  fetchFinished_of_exclusive qt s.cache job cacheFile errorString hin
    (reachable_exclusive qt s hs)

/-- C6 at the example system: the job for `http://x/img.png` wrote two bytes
and succeeded; its key moves to the cache index and the total grows by 2. -/
theorem fetchFinished_spec_witness :
    fetchingSystem.Reachable exampleQt
    ∧ (fetchingSystem.cache.m_fetching doneJob.m_hash).isSome = true
    ∧ (fetchingSystem.cache.fetchFinished doneJob doneJob.m_filePath []).m_fetching
        doneJob.m_hash = none
    ∧ (fetchingSystem.cache.fetchFinished doneJob doneJob.m_filePath []).m_diskCache
        doneJob.m_hash = some doneJob.fileName
    ∧ (fetchingSystem.cache.fetchFinished doneJob doneJob.m_filePath []).m_diskCacheSize
        = fetchingSystem.cache.m_diskCacheSize + 2 :=
  have hs : fetchingSystem.Reachable exampleQt :=
    ⟨"/cache".toList, "device1".toList, true, [], exampleDisk,
      [.startFetching "http://x/img.png".toList "player".toList], rfl⟩
  have h := fetchFinished_spec exampleQt fetchingSystem doneJob doneJob.m_filePath []
    hs (by decide)
  ⟨hs, by decide, h.1, (h.2.2.1 rfl).1, (h.2.2.1 rfl).2.2⟩

/-- C5 at the example job: one copy that succeeds. -/
theorem finished_at_most_once_witness :
    (copyResultIds [.gotData (some .networkReply),
        .copyResult ⟨0, 0, [], .networkReply [] 200, 2⟩]).Nodup
    ∧ (terminalEvents (exampleJob.run exampleWorld [.gotData (some .networkReply),
        .copyResult ⟨0, 0, [], .networkReply [] 200, 2⟩]).2.2).length ≤ 1 :=
  ⟨by decide,
    finished_at_most_once _ exampleJob exampleWorld (by decide) (by
      intro pre e post hsplit hgot
      cases pre with
      | nil => rfl
      | cons a pre =>
        cases pre with
        | nil =>
          simp only [List.cons_append, List.nil_append, List.cons.injEq] at hsplit
          obtain ⟨_, he, _⟩ := hsplit
          rw [← he] at hgot
          simp [JobEvent.isGotData] at hgot
        | cons b pre =>
          have hl := congrArg List.length hsplit
          simp at hl)⟩

/-! ## The image provider -/

/-- C9: `unsafeRequestImageResponse_` leaves the daemon, hence every cache
index and in-flight registry, as it was. An identifier that does not split
on `/` into exactly two parts gives the null image at once, and so does an
unknown device or a device without the plugin. Otherwise, with the key the
base name of the second part: a key in flight gives a response subscribed to
its job; else a cached key gives the image loaded from the cache file; else
the null image at once. -/
theorem unsafeRequestImageResponse_spec (d : Daemon) (id : QString) :
    (unsafeRequestImageResponse_ d id).2 = d
    ∧ ((split '/' id).length ≠ 2 →
        (unsafeRequestImageResponse_ d id).1 = .cached .null)
    ∧ (∀ part0 part1, split '/' id = [part0, part1] →
        (d.getDevice part0 = none →
          (unsafeRequestImageResponse_ d id).1 = .cached .null)
        ∧ (∀ device, d.getDevice part0 = some device → device.mprisRemotePlugin = none →
            (unsafeRequestImageResponse_ d id).1 = .cached .null)
        ∧ (∀ device cache, d.getDevice part0 = some device →
            device.mprisRemotePlugin = some cache →
            (∀ job, cache.m_fetching (QFileInfo.baseName part1) = some job →
              (unsafeRequestImageResponse_ d id).1 = .subscribed job)
            ∧ (cache.m_fetching (QFileInfo.baseName part1) = none →
                ∀ file, cache.m_diskCache (QFileInfo.baseName part1) = some file →
                (unsafeRequestImageResponse_ d id).1
                  = .cached (.fromFile (QDir.filePath cache.m_cacheDir part1)))
            ∧ (cache.m_fetching (QFileInfo.baseName part1) = none →
                cache.m_diskCache (QFileInfo.baseName part1) = none →
                (unsafeRequestImageResponse_ d id).1 = .cached .null))) := by
  refine ⟨?_, ?_, ?_⟩
  · unfold unsafeRequestImageResponse_
    split
    · split
      · rfl
      · split
        · rfl
        · dsimp only
          split
          · rfl
          · split <;> rfl
    · rfl
  · intro hlen
    unfold unsafeRequestImageResponse_
    split
    · rename_i h; rw [h] at hlen; simp at hlen
    · rfl
  · intro part0 part1 hsplit
    refine ⟨?_, ?_, ?_⟩
    · intro hd
      simp [unsafeRequestImageResponse_, hsplit, hd]
    · intro device hd hp
      simp [unsafeRequestImageResponse_, hsplit, hd, hp]
    · intro device cache hd hp
      refine ⟨?_, ?_, ?_⟩
      · intro job hj
        simp [unsafeRequestImageResponse_, hsplit, hd, hp, AlbumArtCache.getFetchingJob, hj]
      · intro hj file hc
        simp [unsafeRequestImageResponse_, hsplit, hd, hp, AlbumArtCache.getFetchingJob, hj,
          AlbumArtCache.isHashAvailable, hc, AlbumArtCache.getCacheFile]
      · intro hj hc
        simp [unsafeRequestImageResponse_, hsplit, hd, hp, AlbumArtCache.getFetchingJob, hj,
          AlbumArtCache.isHashAvailable, hc]

end SailfishConnect
